import Mathlib

/-!
Verification development for the RustRayTracer light-transport core.

The Rust source is shallowly embedded: `f64` values become real numbers,
vectors become a three-component `Vec3` structure, fallible operations return
`Option`, and the stateful rendering loops become explicit recursion with
fuel.  Every definition mirrors the control flow of the corresponding Rust
function (file and function names are recorded in the doc comments).
-/

noncomputable section

open Classical

/-- Three-component real vector, mirroring `cgmath::Vector3<f64>` (`Vec3D`). -/
@[ext]
structure Vec3 where
  x : ℝ
  y : ℝ
  z : ℝ

/-- `cgmath::Point3<f64>` (`Point3D`); points and vectors share the embedding. -/
abbrev Point3 := Vec3

namespace Vec3

def add (a b : Vec3) : Vec3 := ⟨a.x + b.x, a.y + b.y, a.z + b.z⟩

def sub (a b : Vec3) : Vec3 := ⟨a.x - b.x, a.y - b.y, a.z - b.z⟩

def neg (a : Vec3) : Vec3 := ⟨-a.x, -a.y, -a.z⟩

def smul (r : ℝ) (a : Vec3) : Vec3 := ⟨r * a.x, r * a.y, r * a.z⟩

def divScalar (a : Vec3) (r : ℝ) : Vec3 := ⟨a.x / r, a.y / r, a.z / r⟩

instance : Add Vec3 := ⟨Vec3.add⟩

instance : Sub Vec3 := ⟨Vec3.sub⟩

instance : Neg Vec3 := ⟨Vec3.neg⟩

instance : Zero Vec3 := ⟨⟨0, 0, 0⟩⟩

instance : SMul ℝ Vec3 := ⟨Vec3.smul⟩

instance : HDiv Vec3 ℝ Vec3 := ⟨Vec3.divScalar⟩

@[simp] theorem add_def (a b : Vec3) :
    a + b = ⟨a.x + b.x, a.y + b.y, a.z + b.z⟩ := rfl

@[simp] theorem sub_def (a b : Vec3) :
    a - b = ⟨a.x - b.x, a.y - b.y, a.z - b.z⟩ := rfl

@[simp] theorem neg_def (a : Vec3) : -a = ⟨-a.x, -a.y, -a.z⟩ := rfl

@[simp] theorem smul_def (r : ℝ) (a : Vec3) :
    r • a = ⟨r * a.x, r * a.y, r * a.z⟩ := rfl

@[simp] theorem div_def (a : Vec3) (r : ℝ) :
    a / r = ⟨a.x / r, a.y / r, a.z / r⟩ := rfl

@[simp] theorem zero_def : (0 : Vec3) = ⟨0, 0, 0⟩ := rfl

@[simp] theorem zero_x : (0 : Vec3).x = 0 := rfl

@[simp] theorem zero_y : (0 : Vec3).y = 0 := rfl

@[simp] theorem zero_z : (0 : Vec3).z = 0 := rfl

instance : AddCommMonoid Vec3 where
  add_assoc a b c := by ext <;> simp <;> ring
  zero_add a := by ext <;> simp
  add_zero a := by ext <;> simp
  add_comm a b := by ext <;> simp <;> ring
  nsmul := nsmulRec

/-- `InnerSpace::dot`. -/
def dot (a b : Vec3) : ℝ := a.x * b.x + a.y * b.y + a.z * b.z

/-- `Vector3::cross`. -/
def cross (a b : Vec3) : Vec3 :=
  ⟨a.y * b.z - a.z * b.y, a.z * b.x - a.x * b.z, a.x * b.y - a.y * b.x⟩

/-- `InnerSpace::magnitude2` (squared length). -/
def magnitude2 (a : Vec3) : ℝ := a.dot a

/-- `InnerSpace::magnitude`. -/
def magnitude (a : Vec3) : ℝ := Real.sqrt a.magnitude2

/-- `InnerSpace::normalize`: `v * (1 / |v|)`. -/
def normalize (a : Vec3) : Vec3 := a / a.magnitude

/-- `ElementWise::mul_element_wise` (Hadamard product). -/
def mulE (a b : Vec3) : Vec3 := ⟨a.x * b.x, a.y * b.y, a.z * b.z⟩

/-- `math.rs::max_component`: `v.x.max(v.y).max(v.z)`. -/
def max_component (v : Vec3) : ℝ := max (max v.x v.y) v.z

theorem magnitude2_nonneg (a : Vec3) : 0 ≤ a.magnitude2 := by
  simp only [magnitude2, dot]
  nlinarith [sq_nonneg a.x, sq_nonneg a.y, sq_nonneg a.z]

theorem magnitude2_eq_zero_iff (a : Vec3) : a.magnitude2 = 0 ↔ a = 0 := by
  constructor
  · intro h
    simp only [magnitude2, dot] at h
    ext <;> simp only [zero_x, zero_y, zero_z] <;>
      nlinarith [sq_nonneg a.x, sq_nonneg a.y, sq_nonneg a.z]
  · intro h; subst h; simp [magnitude2, dot]

/-- Lagrange / Cauchy-Schwarz inequality for the 3-component dot product. -/
theorem dot_sq_le (a b : Vec3) : (a.dot b) ^ 2 ≤ a.magnitude2 * b.magnitude2 := by
  simp only [magnitude2, dot]
  nlinarith [sq_nonneg (a.x * b.y - a.y * b.x), sq_nonneg (a.x * b.z - a.z * b.x),
    sq_nonneg (a.y * b.z - a.z * b.y)]

end Vec3

/-- `math.rs::Ray`. -/
structure Ray where
  origin : Point3
  direction : Vec3

/-- `Ray::at`: `origin + t * direction`. -/
def Ray.at (r : Ray) (t : ℝ) : Point3 := r.origin + t • r.direction

/-- `math.rs::reflect`: `v - n * 2.0 * v.dot(n)`. -/
def reflect (v n : Vec3) : Vec3 := v - (2.0 * v.dot n) • n

/-- `math.rs::refract`; `None` exactly when the squared transmitted sine
exceeds one. -/
def refract (v n : Vec3) (eta : ℝ) : Option Vec3 :=
  let cos_theta1 := (-v).dot n
  let sin2_theta1 := 1 - cos_theta1 * cos_theta1
  let sin2_theta2 := sin2_theta1 * eta * eta
  if sin2_theta2 > 1 then none
  else
    let cos_theta2 := Real.sqrt (1 - sin2_theta2)
    some (eta • v + (eta * cos_theta1 - cos_theta2) • n)

/-- `math.rs::fresnel`: polarization-averaged Fresnel reflectance, `1.0` at
total internal reflection. -/
def fresnel (cos_i eta_i eta_t : ℝ) : ℝ :=
  let sin2_t := (eta_i / eta_t) * (eta_i / eta_t) * (1 - cos_i * cos_i)
  if sin2_t > 1 then 1
  else
    let cos_t := Real.sqrt (1 - sin2_t)
    let r_ortho := (eta_t * cos_i - eta_i * cos_t) / (eta_t * cos_i + eta_i * cos_t)
    let r_parallel := (eta_i * cos_i - eta_t * cos_t) / (eta_i * cos_i + eta_t * cos_t)
    (r_ortho * r_ortho + r_parallel * r_parallel) / 2

/-! ## Objects: sphere, plane, scene aggregate

From `src/object.rs` / `src/objects/sphere.rs` / `src/scene.rs`.  Shared
`Arc<dyn Material>` handles are embedded as opaque numeric identifiers: the
intersection code only clones the handle, never inspects it. -/

/-- `HitRecord` of `object.rs` (and `objects/common.rs`): hit parameter,
point, normal, and the material handle. -/
@[ext]
structure HitRecord where
  t : ℝ
  p : Point3
  normal : Vec3
  material : ℕ

/-- `Sphere` of `object.rs`: center, radius, shared material handle. -/
structure Sphere where
  center : Point3
  radius : ℝ
  material : ℕ

namespace Sphere

/-- `Sphere::intersect_analytic` (quadratic formula; `object.rs` lines
89-118): mutation of `root` is rendered as nested conditionals. -/
def intersect_analytic (s : Sphere) (ray : Ray) (t_min t_max : ℝ) :
    Option HitRecord :=
  let oc := ray.origin - s.center
  let a := ray.direction.magnitude2
  let half_b := oc.dot ray.direction
  let c := oc.magnitude2 - s.radius * s.radius
  let discriminant := half_b * half_b - a * c
  if discriminant < 0 then none
  else
    let sqrtd := Real.sqrt discriminant
    let root := (-half_b - sqrtd) / a
    if root < t_min ∨ root > t_max then
      let root2 := (-half_b + sqrtd) / a
      if root2 < t_min ∨ root2 > t_max then none
      else
        some ⟨root2, ray.at root2, (ray.at root2 - s.center) / s.radius, s.material⟩
    else
      some ⟨root, ray.at root, (ray.at root - s.center) / s.radius, s.material⟩

/-- `Sphere::intersect_geometric` (projection method; `object.rs` lines
120-157): the two mutations of `t0` (swap, fallback to `t1`) become nested
conditionals. -/
def intersect_geometric (s : Sphere) (ray : Ray) (t_min t_max : ℝ) :
    Option HitRecord :=
  let l := s.center - ray.origin
  let t_ca := l.dot ray.direction
  let d2 := l.magnitude2 - t_ca * t_ca
  if d2 < 0 ∨ d2 > s.radius * s.radius then none
  else
    let t_hc := Real.sqrt (s.radius * s.radius - d2)
    let ta := t_ca - t_hc
    let tb := t_ca + t_hc
    let t0 := if ta > tb then tb else ta
    let t1 := if ta > tb then ta else tb
    if t0 < t_min then
      if t1 < t_min then none
      else if t1 > t_max then none
      else some ⟨t1, ray.at t1, (ray.at t1 - s.center) / s.radius, s.material⟩
    else if t0 > t_max then none
    else some ⟨t0, ray.at t0, (ray.at t0 - s.center) / s.radius, s.material⟩

/-- `Sphere::intersect` delegates to the geometric solver. -/
def intersect (s : Sphere) (ray : Ray) (t_min t_max : ℝ) : Option HitRecord :=
  s.intersect_geometric ray t_min t_max

end Sphere

/-- `Plane` of `object.rs`: point, normal, shared material handle. -/
structure Plane where
  point : Point3
  normal : Vec3
  material : ℕ

/-- `Plane::intersect` (`object.rs` lines 173-191): reject near-parallel
rays, otherwise solve the single linear equation. -/
def Plane.intersect (pl : Plane) (ray : Ray) (t_min t_max : ℝ) :
    Option HitRecord :=
  let denominator := pl.normal.dot ray.direction
  if |denominator| < 1e-6 then none
  else
    let v := pl.point - ray.origin
    let distance := v.dot pl.normal / denominator
    if distance < t_min ∨ distance > t_max then none
    else some ⟨distance, ray.at distance, pl.normal, pl.material⟩

/-- `Object` of `object.rs`: tagged union of the two primitive objects. -/
inductive Object where
  | sphere (s : Sphere)
  | plane (p : Plane)

/-- `Object::intersect` dispatches on the variant. -/
def Object.intersect (o : Object) (ray : Ray) (t_min t_max : ℝ) :
    Option HitRecord :=
  match o with
  | .sphere s => s.intersect ray t_min t_max
  | .plane p => p.intersect ray t_min t_max

/-- The fixed lower bound of the scan window in `Scene::intersect`. -/
def scene_t_min : ℝ := 1e-3

/-- `f32::MAX`, the initial `closest_so_far` in `Scene::intersect`. -/
def f32_max : ℝ := (2 ^ 128 - 2 ^ 104 : ℝ)

/-- Loop body of `Scene::intersect` (`scene.rs` lines 70-82): fold over the
object list carrying `closest_so_far` and the best record so far. -/
def scene_intersect_aux (ray : Ray) :
    List Object → ℝ → Option HitRecord → Option HitRecord
  | [], _, best => best
  | o :: rest, closest, best =>
    match o.intersect ray scene_t_min closest with
    | some temp => scene_intersect_aux ray rest temp.t (some temp)
    | none => scene_intersect_aux ray rest closest best

/-- `Scene::intersect`: linear scan with the `t_max` window shrinking to the
closest hit found so far. -/
def scene_intersect (objects : List Object) (ray : Ray) : Option HitRecord :=
  scene_intersect_aux ray objects f32_max none

/-! ## Shapes: plane and triangle of `src/shapes/`

The `shapes/` hit record stores no material handle (only back references,
dropped here per the record's downstream use): hit parameter, point, normal. -/

/-- Hit record of `src/common.rs` as produced by `shapes/plane.rs` and
`shapes/triangle.rs` (back references omitted). -/
structure ShapeHit where
  t : ℝ
  p : Point3
  normal : Vec3

/-- `shapes/plane.rs::Plane`. -/
structure ShapePlane where
  point : Point3
  normal : Vec3

/-- `Plane::intersect` of `shapes/plane.rs` lines 23-41. -/
def ShapePlane.intersect (pl : ShapePlane) (ray : Ray) (t_min t_max : ℝ) :
    Option ShapeHit :=
  let denominator := pl.normal.dot ray.direction
  if |denominator| < 1e-6 then none
  else
    let v := pl.point - ray.origin
    let distance := v.dot pl.normal / denominator
    if distance < t_min ∨ distance > t_max then none
    else some ⟨distance, ray.at distance, pl.normal⟩

/-- `shapes/triangle.rs::triangle_intersect`: Moller-Trumbore, returning
`(t, u, v)`. -/
def triangle_intersect (v0 v1 v2 : Point3) (ray : Ray) (t_min t_max : ℝ) :
    Option (ℝ × ℝ × ℝ) :=
  let e1 := v1 - v0
  let e2 := v2 - v0
  let h := ray.direction.cross e2
  let a := e1.dot h
  if |a| < 1e-6 then none
  else
    let f := 1 / a
    let s := ray.origin - v0
    let u := f * s.dot h
    if u < 0 ∨ u > 1 then none
    else
      let q := s.cross e1
      let v := f * ray.direction.dot q
      if v < 0 ∨ u + v > 1 then none
      else
        let t := f * e2.dot q
        if t > t_min ∧ t < t_max then some (t, u, v) else none

/-- `shapes/triangle.rs::Triangle`. -/
structure Triangle where
  vertices : Fin 3 → Point3

/-- `Triangle::intersect` of `shapes/triangle.rs` lines 109-133: normal is
the normalized edge cross product. -/
def Triangle.intersect (tri : Triangle) (ray : Ray) (t_min t_max : ℝ) :
    Option ShapeHit :=
  match triangle_intersect (tri.vertices 0) (tri.vertices 1) (tri.vertices 2)
      ray t_min t_max with
  | none => none
  | some (t, _, _) =>
    let p := ray.at t
    let normal := ((tri.vertices 1 - tri.vertices 0).cross
        (tri.vertices 2 - tri.vertices 0)).normalize
    some ⟨t, p, normal⟩

/-! ## Materials (`src/material.rs`)

`rand::thread_rng().gen()` draws are passed explicitly as arguments in
`[0, 1)`; the shared material behind an `Arc` never matters to these
definitions. -/

/-- `ScatterResult` of `material.rs`. -/
structure ScatterResult where
  ray : Ray
  pdf : ℝ

/-- `IdealReflector::scatter` (`material.rs` lines 156-163): deterministic
mirror reflection with pdf 1. -/
def idealReflector_scatter (ray_in : Ray) (hit_point : Point3) (normal : Vec3) :
    Option ScatterResult :=
  some ⟨⟨hit_point, reflect ray_in.direction normal⟩, 1⟩

/-- `IdealReflector::bxdf` (`material.rs` lines 165-173): Dirac-like density,
nonzero only near the exact reflection direction. -/
def idealReflector_bxdf (ray_in ray_out : Ray) (normal : Vec3) : Vec3 :=
  let reflected := reflect ray_in.direction normal
  let cos_theta := ray_out.direction.dot normal
  if cos_theta > 1e-6 ∧ (ray_out.direction - reflected).magnitude2 < 1e-6 then
    (⟨1, 1, 1⟩ : Vec3) / cos_theta
  else 0

/-- Outcome of `IdealDielectric::scatter`: the Rust function either panics
(`reflectance > 1.0`), returns `None`, or returns `Some(ScatterResult)`. -/
inductive DielectricOutcome where
  | panicked
  | absorbed
  | scattered (result : ScatterResult)

/-- The `eta_i`, `eta_t` and `outward_normal` selection at the top of
`IdealDielectric::scatter` and `bxdf` (`material.rs` lines 188-198). -/
def dielectric_setup (ior : ℝ) (ray_in : Ray) (normal : Vec3) : ℝ × ℝ × Vec3 :=
  if ray_in.direction.dot normal > 0 then (ior, 1, -normal) else (1, ior, normal)

/-- `IdealDielectric::scatter` (`material.rs` lines 187-229) with the uniform
sample `r` made explicit. -/
def idealDielectric_scatter (ior : ℝ) (ray_in : Ray) (hit_point : Point3)
    (normal : Vec3) (r : ℝ) : DielectricOutcome :=
  let setup := dielectric_setup ior ray_in normal
  let eta_i := setup.1
  let eta_t := setup.2.1
  let outward_normal := setup.2.2
  let eta := eta_i / eta_t
  let unit_direction := ray_in.direction.normalize
  let cos_theta := (-unit_direction).dot outward_normal
  let reflectance := fresnel cos_theta eta_i eta_t
  if reflectance > 1 then .panicked
  else if r < reflectance then
    .scattered ⟨⟨hit_point, reflect unit_direction outward_normal⟩, reflectance⟩
  else
    match refract unit_direction outward_normal eta with
    | none => .absorbed
    | some refracted => .scattered ⟨⟨hit_point, refracted⟩, 1 - reflectance⟩

/-! ## Renderer per-pixel sample loop (`src/renderer.rs` lines 110-126)

The body (one camera ray traced) runs once, then repeats while
`start_next_sample()` returns true; afterwards the accumulated color is
divided by `samples_per_pixel()`.  `trace` is abstracted as a function from
the (zero-based) trace-call index to the returned radiance. -/

/-- Pixel loop under `RandomSampler::start_next_sample` (`sampler.rs` lines
48-55): continue while `current_sample < samples_per_pixel`, incrementing.
Returns accumulated color and the number of executed loop bodies. -/
def random_pixel_loop (spp : ℕ) (traceF : ℕ → Vec3) (color : Vec3)
    (k cur : ℕ) : Vec3 × ℕ :=
  let color2 := color + traceF k
  if h : cur < spp then random_pixel_loop spp traceF color2 (k + 1) (cur + 1)
  else (color2, k + 1)
termination_by spp - cur

/-- Pixel loop under `StratifiedSampler::start_next_sample` (`sampler.rs`
lines 152-160): continue while `current_sample_index < samples_per_pixel - 1`. -/
def stratified_pixel_loop (spp : ℕ) (traceF : ℕ → Vec3) (color : Vec3)
    (k cur : ℕ) : Vec3 × ℕ :=
  let color2 := color + traceF k
  if h : cur < spp - 1 then stratified_pixel_loop spp traceF color2 (k + 1) (cur + 1)
  else (color2, k + 1)
termination_by spp - 1 - cur

/-- `render`'s per-pixel work for the Random sampler: `start_pixel` resets
`current_sample` to 0, the loop accumulates, then `color /= spp`. -/
def random_render_pixel (spp : ℕ) (traceF : ℕ → Vec3) : Vec3 :=
  (random_pixel_loop spp traceF 0 0 0).1 / (spp : ℝ)

/-- Number of camera rays the Random-sampler pixel loop traces. -/
def random_trace_count (spp : ℕ) : ℕ :=
  (random_pixel_loop spp (fun _ => 0) 0 0 0).2

/-- `render`'s per-pixel work for the Stratified sampler. -/
def stratified_render_pixel (spp : ℕ) (traceF : ℕ → Vec3) : Vec3 :=
  (stratified_pixel_loop spp traceF 0 0 0).1 / (spp : ℝ)

/-- Number of camera rays the Stratified-sampler pixel loop traces. -/
def stratified_trace_count (spp : ℕ) : ℕ :=
  (stratified_pixel_loop spp (fun _ => 0) 0 0 0).2

/-! ## Integrator (`src/raytracer.rs`)

The scene, materials and sampler are collaborators of the integrator; they
are embedded as explicit function-valued parameters, so every theorem below
holds for each of their instantiations.  The sampler is a stream of reals
with a cursor; `get_1d` reads the cursor position and advances. -/

/-- Abstract per-thread sampler: stream of drawn values plus cursor. -/
structure SamplerT where
  vals : ℕ → ℝ
  idx : ℕ

/-- `Sampler::get_1d`: read the current value, advance the cursor. -/
def SamplerT.get1d (s : SamplerT) : ℝ × SamplerT :=
  (s.vals s.idx, ⟨s.vals, s.idx + 1⟩)

/-- Abstract material as seen by the integrator (`Material` trait object):
emission color, scatter proposal (which may consume sampler state), bxdf. -/
structure MaterialT where
  emission : Vec3
  scatter : Ray → Point3 → Vec3 → SamplerT → Option ScatterResult × SamplerT
  bxdf : Ray → Ray → Point3 → Vec3 → Vec3

/-- Scene hit as consumed by the integrator: point, normal, material. -/
structure HitM where
  p : Point3
  normal : Vec3
  material : MaterialT

/-- Abstract `Scene::intersect` used by `raytracer.rs`. -/
def SceneT : Type := Ray → Option HitM

/-- `raytracer.rs::MIN_DEPTH`. -/
def MIN_DEPTH : ℕ := 2

/-- `raytracer.rs::MAX_DEPTH`. -/
def MAX_DEPTH : ℕ := 6

/-- `PathVertex` of `raytracer.rs`. -/
structure PathVertex where
  position : Point3
  normal : Vec3
  beta : Vec3
  material : Option MaterialT

/-- Default vertex used to give list indexing a total meaning. -/
def pv_default : PathVertex := ⟨0, 0, 0, none⟩

/-- The Russian-roulette continuation probability computed at
`raytracer.rs` lines 57-61: `1` up to and including `MIN_DEPTH`, and
`max_component(beta).min(1.0)` strictly beyond it. -/
def continue_prob (depth : ℕ) (beta : Vec3) : ℝ :=
  if depth > MIN_DEPTH then min (Vec3.max_component beta) 1 else 1

/-- Loop body of `generate_camera_vertices` (`raytracer.rs` lines 36-89),
structurally recursive on the remaining iterations of `for depth in
0..MAX_DEPTH` (so `fuel + depth = MAX_DEPTH` at every call). -/
def gen_aux (scene : SceneT) : ℕ → ℕ → Ray → Vec3 → SamplerT → List PathVertex
  | 0, _, _, _, _ => []
  | fuel + 1, depth, ray, beta, smp =>
    match scene ray with
    | none => []
    | some hit =>
      (⟨hit.p, hit.normal, beta, some hit.material⟩ : PathVertex) ::
        (if hit.material.emission.magnitude > 1e-6 then []
         else
           let prob := continue_prob depth beta
           let draw := smp.get1d
           if draw.1 > prob then []
           else
             let beta2 := beta / prob
             match hit.material.scatter ray hit.p hit.normal draw.2 with
             | (none, _) => []
             | (some sr, smp2) =>
               if sr.pdf ≤ 1e-6 then []
               else
                 let cos_theta := |sr.ray.direction.dot hit.normal|
                 let bxdf := hit.material.bxdf ray sr.ray hit.p hit.normal
                 gen_aux scene fuel (depth + 1) sr.ray
                   (beta2.mulE ((cos_theta • bxdf) / sr.pdf)) smp2)

/-- The part of the loop body after a survived roulette test, with the
divided throughput passed in; definitionally the tail used by `gen_aux`. -/
def post_roulette (scene : SceneT) (fuel depth : ℕ) (ray : Ray) (beta2 : Vec3)
    (smp : SamplerT) (hit : HitM) : List PathVertex :=
  match hit.material.scatter ray hit.p hit.normal smp with
  | (none, _) => []
  | (some sr, smp2) =>
    if sr.pdf ≤ 1e-6 then []
    else
      let cos_theta := |sr.ray.direction.dot hit.normal|
      let bxdf := hit.material.bxdf ray sr.ray hit.p hit.normal
      gen_aux scene fuel (depth + 1) sr.ray
        (beta2.mulE ((cos_theta • bxdf) / sr.pdf)) smp2

/-- `raytracer.rs::generate_camera_vertices`: camera-origin vertex followed
by the loop output. -/
def generate_camera_vertices (scene : SceneT) (camera_ray : Ray)
    (smp : SamplerT) : List PathVertex :=
  (⟨camera_ray.origin, 0, ⟨1, 1, 1⟩, none⟩ : PathVertex) ::
    gen_aux scene MAX_DEPTH 0 camera_ray ⟨1, 1, 1⟩ smp

/-- `raytracer.rs::emissive_material`. -/
def emissive_material (m : Option MaterialT) : Prop :=
  match m with
  | none => False
  | some mat => mat.emission.magnitude > 1e-6

/-- Emission of an optional material; total stand-in for the
`as_ref().unwrap().emission()` call guarded by `emissive_material`. -/
def emission_of (m : Option MaterialT) : Vec3 :=
  match m with
  | none => 0
  | some mat => mat.emission

/-- Outcome of `raytracer.rs::connect`: a color, or the `panic!("not
implemented")` reached for a non-trivial light sub-path. -/
inductive ConnectOutcome where
  | value (c : Vec3)
  | unimplemented

/-- `raytracer.rs::connect` (lines 102-128). -/
def connect (camera_vertices light_vertices : List PathVertex) (s t : ℕ) :
    ConnectOutcome :=
  let _ := light_vertices
  if t > 1 ∧ s > 0 ∧
      emissive_material (camera_vertices.getD (t - 1) pv_default).material then
    .value 0
  else if s = 0 then
    let vertex := camera_vertices.getD (t - 1) pv_default
    if emissive_material vertex.material then
      .value (vertex.beta.mulE (emission_of vertex.material))
    else .value 0
  else .unimplemented

/-- Body of `trace`'s inner loop over `s` (`raytracer.rs` lines 139-146):
skip the excluded `(s,t)` pairs, otherwise add `connect`'s color;
`none` models the whole call panicking inside `connect`. -/
def connect_loop_inner (camera_vertices light_vertices : List PathVertex)
    (t : ℕ) (acc : Option Vec3) (s : ℕ) : Option Vec3 :=
  match acc with
  | none => none
  | some color =>
    let depth : ℤ := (s : ℤ) + (t : ℤ) - 2
    if (s = 1 ∧ t = 1) ∨ depth < 0 ∨ depth > (MAX_DEPTH : ℤ) then some color
    else
      match connect camera_vertices light_vertices s t with
      | .value c => some (color + c)
      | .unimplemented => none

/-- Body of `trace`'s outer loop over `t = i + 1`. -/
def connect_loop_outer (camera_vertices light_vertices : List PathVertex)
    (acc : Option Vec3) (i : ℕ) : Option Vec3 :=
  (List.range (light_vertices.length + 1)).foldl
    (connect_loop_inner camera_vertices light_vertices (i + 1)) acc

/-- `raytracer.rs::trace` (lines 130-150): generate the camera sub-path, use
an empty light sub-path, and accumulate `connect` over all `(s, t)`. -/
def trace (scene : SceneT) (ray : Ray) (smp : SamplerT) : Option Vec3 :=
  let camera_vertices := generate_camera_vertices scene ray smp
  let light_vertices : List PathVertex := []
  (List.range camera_vertices.length).foldl
    (connect_loop_outer camera_vertices light_vertices) (some 0)

/-! ## Mesh load-time validation (`src/objects/utils.rs` lines 87-123)

The PLY file reading (`PlyMeshLoader::load`) is file input handled by an
external collaborator; the embedded `load_mesh` takes the already-parsed
arrays and performs the validation loop of `load_mesh`. -/

/-- `shapes/mesh.rs::Mesh` data (material handle embedded as an id). -/
structure Mesh where
  vertices : List Point3
  normals : List Vec3
  indices : List (List ℕ)
  material : ℕ

/-- `shapes/quadrilateral.rs::are_points_coplanar` (lines 21-31). -/
def are_points_coplanar (v0 v1 v2 v3 : Point3) : Prop :=
  let e01 := v1 - v0
  let e02 := v2 - v0
  let e03 := v3 - v0
  let n1 := e01.cross e02
  let n2 := e02.cross e03
  let cos := n1.dot n2 / (n1.magnitude * n2.magnitude)
  |(|cos| - 1)| < 1e-3

/-- `shapes/quadrilateral.rs::is_quadrilateral_convex` (lines 33-52). -/
def is_quadrilateral_convex (v0 v1 v2 v3 : Point3) : Prop :=
  are_points_coplanar v0 v1 v2 v3 ∧
    (let e01 := v1 - v0
     let e12 := v2 - v1
     let e23 := v3 - v2
     let e30 := v0 - v3
     let cross1 := e01.cross e12
     let cross2 := e12.cross e23
     let cross3 := e23.cross e30
     let cross4 := e30.cross e01
     cross1.dot cross2 ≥ 0 ∧ cross2.dot cross3 ≥ 0 ∧
       cross3.dot cross4 ≥ 0 ∧ cross4.dot cross1 ≥ 0)

/-- The per-face check inside `load_mesh`'s validation loop; `some` is the
error message returned for the first offending face. -/
def face_check (mesh : Mesh) (indices : List ℕ) : Option String :=
  if indices.length < 3 then some "Invalid mesh: face with fewer than 3 indices"
  else if indices.length = 3 then none
  else if indices.length = 4 then
    let a := mesh.vertices.getD (indices.getD 0 0) 0
    let b := mesh.vertices.getD (indices.getD 1 0) 0
    let c := mesh.vertices.getD (indices.getD 2 0) 0
    let d := mesh.vertices.getD (indices.getD 3 0) 0
    if ¬ are_points_coplanar a b c d then some "Invalid mesh, Reason: coplanar"
    else if ¬ is_quadrilateral_convex a b c d then
      some "Invalid mesh, Reason: non-convex"
    else none
  else none

/-- `objects/utils.rs::load_mesh` validation: scan the faces in order and
return the first failure, otherwise `Ok(mesh)`. -/
def load_mesh (mesh : Mesh) : Except String Mesh :=
  match mesh.indices.findSome? (face_check mesh) with
  | some e => .error e
  | none => .ok mesh

/-! ## Helper definitions used by the specification statements -/

/-- Incidence cosine computed inside `IdealDielectric::scatter`:
`(-unit_direction).dot(outward_normal)`. -/
def dielectric_cos (ior : ℝ) (ray_in : Ray) (normal : Vec3) : ℝ :=
  (-(ray_in.direction.normalize)).dot (dielectric_setup ior ray_in normal).2.2

/-- The squared transmitted sine governing total internal reflection in the
dielectric scatter (the `sin2_t` of `fresnel` at the scatter's arguments). -/
def dielectric_sin2_t (ior : ℝ) (ray_in : Ray) (normal : Vec3) : ℝ :=
  let setup := dielectric_setup ior ray_in normal
  let c := dielectric_cos ior ray_in normal
  (setup.1 / setup.2.1) * (setup.1 / setup.2.1) * (1 - c * c)

/-- Vertex `i` of a face, as read by `load_mesh`'s quadrilateral checks. -/
def face_vertex (mesh : Mesh) (face : List ℕ) (i : ℕ) : Point3 :=
  mesh.vertices.getD (face.getD i 0) 0

/-- A face passing `load_mesh`'s validation: at least 3 indices, and a
4-index face must be coplanar and convex. -/
def face_valid (mesh : Mesh) (face : List ℕ) : Prop :=
  3 ≤ face.length ∧
    (face.length = 4 →
      are_points_coplanar (face_vertex mesh face 0) (face_vertex mesh face 1)
          (face_vertex mesh face 2) (face_vertex mesh face 3) ∧
        is_quadrilateral_convex (face_vertex mesh face 0) (face_vertex mesh face 1)
          (face_vertex mesh face 2) (face_vertex mesh face 3))

/-- Contribution of one camera-path vertex to `trace`'s color: the
`connect` value for `s = 0`. -/
def vertex_contrib (v : PathVertex) : Vec3 :=
  if emissive_material v.material then v.beta.mulE (emission_of v.material) else 0

/-- Sum of the emissive contributions of a vertex list. -/
def emissive_sum (l : List PathVertex) : Vec3 := (l.map vertex_contrib).sum

/-- The window logic shared by the per-object intersectors: pick the near
candidate if it lies in `[t_min, t_max]`, fall back to the far candidate,
otherwise nothing.  `Sphere::intersect_geometric` instantiates it with the
two sphere roots, `Plane::intersect` with its single solution twice. -/
def window_pick (ta tb t_min t_max : ℝ) : Option ℝ :=
  if ta < t_min then
    if tb < t_min then none
    else if tb > t_max then none
    else some tb
  else if ta > t_max then none
  else some ta

/-- A material that never scatters and emits nothing (the `MockMaterial`
of `material.rs`, lifted to the integrator interface); used to instantiate
the integrator theorems at concrete inputs. -/
def mock_material : MaterialT := ⟨0, fun _ _ _ s => (none, s), fun _ _ _ _ => 0⟩

/-- A concrete scene hit carrying `mock_material`. -/
def mock_hit : HitM := ⟨0, ⟨0, 0, 1⟩, mock_material⟩

/-- A scene that reports `mock_hit` for every ray. -/
def mock_scene : SceneT := fun _ => some mock_hit

/-- A concrete camera ray. -/
def mock_ray : Ray := ⟨0, ⟨0, 0, -1⟩⟩

/-- A sampler whose stream is constantly `2` (above every probability). -/
def high_sampler : SamplerT := ⟨fun _ => 2, 0⟩

/-! ## Claim C9: ideal mirror reflector -/

/-- Claim C9: `IdealReflector::scatter` always returns the exact mirror
reflection with pdf 1; `bxdf` is nonzero only within tolerance of the exact
reflection direction with cosine above `1e-6`, where it equals `1 / cos`;
and along the sampled specular path the estimator weight
`cos * bxdf / pdf` is exactly one. -/
theorem ideal_reflector_spec :
    (∀ (ray_in : Ray) (hit_point : Point3) (normal : Vec3),
        idealReflector_scatter ray_in hit_point normal =
          some ⟨⟨hit_point, reflect ray_in.direction normal⟩, 1⟩) ∧
    (∀ (ray_in ray_out : Ray) (normal : Vec3),
        idealReflector_bxdf ray_in ray_out normal ≠ 0 →
          ray_out.direction.dot normal > 1e-6 ∧
            (ray_out.direction - reflect ray_in.direction normal).magnitude2 < 1e-6 ∧
            idealReflector_bxdf ray_in ray_out normal =
              (⟨1, 1, 1⟩ : Vec3) / ray_out.direction.dot normal) ∧
    (∀ (ray_in : Ray) (hit_point : Point3) (normal : Vec3) (sr : ScatterResult),
        idealReflector_scatter ray_in hit_point normal = some sr →
        (reflect ray_in.direction normal).dot normal > 1e-6 →
        (sr.ray.direction.dot normal • idealReflector_bxdf ray_in sr.ray normal) /
            sr.pdf = (⟨1, 1, 1⟩ : Vec3)) := by
  refine ⟨fun _ _ _ => rfl, ?_, ?_⟩
  · intro ray_in ray_out normal hne
    by_cases hc : ray_out.direction.dot normal > 1e-6 ∧
        (ray_out.direction - reflect ray_in.direction normal).magnitude2 < 1e-6
    · exact ⟨hc.1, hc.2, by simp only [idealReflector_bxdf, if_pos hc]⟩
    · exact absurd (by simp only [idealReflector_bxdf, if_neg hc]) hne
  · intro ray_in hit_point normal sr hsc hcos
    have hsr : sr = ⟨⟨hit_point, reflect ray_in.direction normal⟩, 1⟩ :=
      Option.some_injective _ hsc.symm
    subst hsr
    have hself : ((reflect ray_in.direction normal) -
        reflect ray_in.direction normal).magnitude2 = 0 := by
      simp [Vec3.magnitude2, Vec3.dot]
    have hcond : (reflect ray_in.direction normal).dot normal > 1e-6 ∧
        ((reflect ray_in.direction normal) -
          reflect ray_in.direction normal).magnitude2 < 1e-6 := by
      exact ⟨hcos, by rw [hself]; norm_num⟩
    have hbx : idealReflector_bxdf ray_in ⟨hit_point, reflect ray_in.direction normal⟩
        normal = (⟨1, 1, 1⟩ : Vec3) / (reflect ray_in.direction normal).dot normal := by
      simp only [idealReflector_bxdf]
      exact if_pos hcond
    have hne : (reflect ray_in.direction normal).dot normal ≠ 0 := by
      have := hcos; positivity
    ext <;> simp [hbx, Vec3.divScalar, Vec3.smul] <;> field_simp

/-- Witness for C9 at the concrete incoming direction `(0,0,-1)` against
the normal `(0,0,1)`. -/
theorem ideal_reflector_spec_witness :
    (reflect (⟨0, 0, -1⟩ : Vec3) ⟨0, 0, 1⟩).dot ⟨0, 0, 1⟩ > 1e-6 ∧
      ((ScatterResult.mk ⟨(0 : Vec3), reflect (⟨0, 0, -1⟩ : Vec3) ⟨0, 0, 1⟩⟩ 1).ray.direction.dot
            ⟨0, 0, 1⟩ •
          idealReflector_bxdf ⟨0, ⟨0, 0, -1⟩⟩
            (ScatterResult.mk ⟨(0 : Vec3), reflect (⟨0, 0, -1⟩ : Vec3) ⟨0, 0, 1⟩⟩ 1).ray
            ⟨0, 0, 1⟩) /
          (ScatterResult.mk ⟨(0 : Vec3), reflect (⟨0, 0, -1⟩ : Vec3) ⟨0, 0, 1⟩⟩ 1).pdf =
        (⟨1, 1, 1⟩ : Vec3) := by
  have hcos : (reflect (⟨0, 0, -1⟩ : Vec3) ⟨0, 0, 1⟩).dot ⟨0, 0, 1⟩ > 1e-6 := by
    norm_num [reflect, Vec3.dot, Vec3.smul, Vec3.sub]
  exact ⟨hcos, ideal_reflector_spec.2.2 ⟨0, ⟨0, 0, -1⟩⟩ 0 ⟨0, 0, 1⟩ _ rfl hcos⟩

/-! ## Claim C2: Russian roulette in the path-generation loop -/

/-- Counterexample to C2 as stated: strictly beyond the minimum depth the
continuation probability depends on the running throughput — it is `1` for
throughput `(1,1,1)` but `1/2` for throughput `(1/2,1/2,1/2)` at the same
depth 3 — so it is not a fixed configuration constant; moreover at depth
exactly `MIN_DEPTH` it is still `1` regardless of the throughput. -/
theorem roulette_not_fixed_constant :
    continue_prob 3 ⟨1, 1, 1⟩ = 1 ∧
      continue_prob 3 ⟨1 / 2, 1 / 2, 1 / 2⟩ = 1 / 2 ∧
      continue_prob MIN_DEPTH ⟨1 / 2, 1 / 2, 1 / 2⟩ = 1 ∧
      continue_prob 3 ⟨1, 1, 1⟩ ≠ continue_prob 3 ⟨1 / 2, 1 / 2, 1 / 2⟩ := by
  refine ⟨?_, ?_, ?_, ?_⟩ <;>
    norm_num [continue_prob, MIN_DEPTH, Vec3.max_component]

/-- Claim C2 (amended): up to and including `MIN_DEPTH` the continuation
probability is `1`; strictly beyond it, the probability is the adaptive
`min(max_component(beta), 1)` rather than a fixed constant; the drawn
uniform sample terminates the path exactly when it exceeds the probability,
and a surviving path's throughput is divided by the probability before
scattering continues. -/
theorem roulette_spec :
    (∀ (depth : ℕ) (beta : Vec3), depth ≤ MIN_DEPTH → continue_prob depth beta = 1) ∧
    (∀ (depth : ℕ) (beta : Vec3), depth > MIN_DEPTH →
        continue_prob depth beta = min (Vec3.max_component beta) 1) ∧
    (∀ (scene : SceneT) (fuel depth : ℕ) (ray : Ray) (beta : Vec3)
        (smp : SamplerT) (hit : HitM),
        scene ray = some hit →
        ¬ hit.material.emission.magnitude > 1e-6 →
        (smp.get1d).1 > continue_prob depth beta →
        gen_aux scene (fuel + 1) depth ray beta smp =
          [⟨hit.p, hit.normal, beta, some hit.material⟩]) ∧
    (∀ (scene : SceneT) (fuel depth : ℕ) (ray : Ray) (beta : Vec3)
        (smp : SamplerT) (hit : HitM),
        scene ray = some hit →
        ¬ hit.material.emission.magnitude > 1e-6 →
        (smp.get1d).1 ≤ continue_prob depth beta →
        gen_aux scene (fuel + 1) depth ray beta smp =
          (⟨hit.p, hit.normal, beta, some hit.material⟩ : PathVertex) ::
            post_roulette scene fuel depth ray (beta / continue_prob depth beta)
              (smp.get1d).2 hit) := by
  refine ⟨?_, ?_, ?_, ?_⟩
  · intro depth beta hle
    simp only [continue_prob, if_neg (by omega : ¬ depth > MIN_DEPTH)]
  · intro depth beta hgt
    simp only [continue_prob, if_pos hgt]
  · intro scene fuel depth ray beta smp hit hscene hemiss hgt
    simp only [gen_aux, hscene, if_neg hemiss, if_pos hgt]
  · intro scene fuel depth ray beta smp hit hscene hemiss hle
    simp only [gen_aux, hscene, if_neg hemiss, if_neg (not_lt.mpr hle), post_roulette]


/-- Witness for C2's amended theorem: a concrete one-object scene whose
material never scatters, and a sampler whose first draw is `2 > 1`: the
loop records the hit vertex and terminates. -/
theorem roulette_spec_witness :
    mock_scene mock_ray = some mock_hit ∧
      ¬ mock_hit.material.emission.magnitude > 1e-6 ∧
      (high_sampler.get1d).1 > continue_prob 0 ⟨1, 1, 1⟩ ∧
      gen_aux mock_scene (5 + 1) 0 mock_ray ⟨1, 1, 1⟩ high_sampler =
        [⟨mock_hit.p, mock_hit.normal, ⟨1, 1, 1⟩, some mock_hit.material⟩] := by
  have hemiss : ¬ mock_hit.material.emission.magnitude > 1e-6 := by
    norm_num [mock_hit, mock_material, Vec3.magnitude, Vec3.magnitude2, Vec3.dot,
      Real.sqrt_zero]
  have hgt : (high_sampler.get1d).1 > continue_prob 0 ⟨1, 1, 1⟩ := by
    norm_num [high_sampler, SamplerT.get1d, continue_prob, MIN_DEPTH]
  exact ⟨rfl, hemiss, hgt,
    roulette_spec.2.2.1 mock_scene 5 0 mock_ray ⟨1, 1, 1⟩ high_sampler mock_hit rfl
      hemiss hgt⟩

/-! ## Claim C3: per-pixel sample counts -/

theorem random_pixel_loop_eq (spp : ℕ) (traceF : ℕ → Vec3) :
    ∀ (n cur : ℕ), spp - cur = n → cur ≤ spp → ∀ (color : Vec3) (k : ℕ),
      random_pixel_loop spp traceF color k cur =
        (color + ∑ j ∈ Finset.range (n + 1), traceF (k + j), k + n + 1) := by
  intro n
  induction n with
  | zero =>
    intro cur h hle color k
    rw [random_pixel_loop, dif_neg (by omega : ¬ cur < spp)]
    simp [Finset.sum_range_one]
  | succ n ih =>
    intro cur h hle color k
    have hlt : cur < spp := by omega
    rw [random_pixel_loop, dif_pos hlt, ih (cur + 1) (by omega) (by omega)]
    refine Prod.ext ?_ (by omega)
    show color + traceF k + ∑ j ∈ Finset.range (n + 1), traceF (k + 1 + j) =
      color + ∑ j ∈ Finset.range (n + 1 + 1), traceF (k + j)
    rw [add_assoc]
    congr 1
    rw [Finset.sum_range_succ' (fun j => traceF (k + j)) (n + 1)]
    simp only [Nat.add_zero]
    rw [add_comm]
    congr 1
    refine Finset.sum_congr rfl fun j _ => ?_
    congr 1
    omega

theorem stratified_pixel_loop_eq (spp : ℕ) (traceF : ℕ → Vec3) :
    ∀ (n cur : ℕ), spp - 1 - cur = n → cur ≤ spp - 1 → ∀ (color : Vec3) (k : ℕ),
      stratified_pixel_loop spp traceF color k cur =
        (color + ∑ j ∈ Finset.range (n + 1), traceF (k + j), k + n + 1) := by
  intro n
  induction n with
  | zero =>
    intro cur h hle color k
    rw [stratified_pixel_loop, dif_neg (by omega : ¬ cur < spp - 1)]
    simp [Finset.sum_range_one]
  | succ n ih =>
    intro cur h hle color k
    have hlt : cur < spp - 1 := by omega
    rw [stratified_pixel_loop, dif_pos hlt, ih (cur + 1) (by omega) (by omega)]
    refine Prod.ext ?_ (by omega)
    show color + traceF k + ∑ j ∈ Finset.range (n + 1), traceF (k + 1 + j) =
      color + ∑ j ∈ Finset.range (n + 1 + 1), traceF (k + j)
    rw [add_assoc]
    congr 1
    rw [Finset.sum_range_succ' (fun j => traceF (k + j)) (n + 1)]
    simp only [Nat.add_zero]
    rw [add_comm]
    congr 1
    refine Finset.sum_congr rfl fun j _ => ?_
    congr 1
    omega

/-- Claim C3 (documents the divergence): under the Random sampler the
per-pixel loop of `render` executes `spp + 1` trace calls, while under the
Stratified sampler it executes exactly `spp`; in both cases the accumulated
color is divided by `spp`. -/
theorem renderer_sample_count_spec :
    (∀ spp : ℕ, random_trace_count spp = spp + 1) ∧
    (∀ spp : ℕ, 1 ≤ spp → stratified_trace_count spp = spp) ∧
    (∀ (spp : ℕ) (traceF : ℕ → Vec3),
        random_render_pixel spp traceF =
          (∑ j ∈ Finset.range (spp + 1), traceF j) / (spp : ℝ)) ∧
    (∀ (spp : ℕ) (traceF : ℕ → Vec3), 1 ≤ spp →
        stratified_render_pixel spp traceF =
          (∑ j ∈ Finset.range spp, traceF j) / (spp : ℝ)) := by
  refine ⟨?_, ?_, ?_, ?_⟩
  · intro spp
    unfold random_trace_count
    rw [random_pixel_loop_eq spp _ spp 0 (by omega) (by omega)]
    omega
  · intro spp h1
    unfold stratified_trace_count
    rw [stratified_pixel_loop_eq spp _ (spp - 1) 0 (by omega) (by omega)]
    omega
  · intro spp traceF
    unfold random_render_pixel
    rw [random_pixel_loop_eq spp _ spp 0 (by omega) (by omega)]
    simp
  · intro spp traceF h1
    unfold stratified_render_pixel
    rw [stratified_pixel_loop_eq spp _ (spp - 1) 0 (by omega) (by omega)]
    have : spp - 1 + 1 = spp := by omega
    simp [this]

/-- Witness for C3 at `spp = 1`: the Random-sampler loop traces two rays
where the Stratified one traces one. -/
theorem renderer_sample_count_witness :
    (1 : ℕ) ≤ 1 ∧ random_trace_count 1 = 2 ∧ stratified_trace_count 1 = 1 :=
  ⟨by norm_num, renderer_sample_count_spec.1 1,
    renderer_sample_count_spec.2.1 1 (by norm_num)⟩

/-! ## Claim C8: mesh load-time validation -/

theorem face_check_eq_none_iff (mesh : Mesh) (face : List ℕ) :
    face_check mesh face = none ↔ face_valid mesh face := by
  unfold face_check face_valid face_vertex
  split_ifs with h1 h2 h3
  · refine ⟨fun hs => absurd hs (by simp), fun hv => ?_⟩
    exact absurd hv.1 (by omega)
  · exact ⟨fun _ => ⟨by omega, fun h4 => by omega⟩, fun _ => by trivial⟩
  · by_cases hcop : are_points_coplanar (mesh.vertices.getD (face.getD 0 0) 0)
        (mesh.vertices.getD (face.getD 1 0) 0) (mesh.vertices.getD (face.getD 2 0) 0)
        (mesh.vertices.getD (face.getD 3 0) 0)
    · rw [if_neg (not_not_intro hcop)]
      by_cases hconv : is_quadrilateral_convex (mesh.vertices.getD (face.getD 0 0) 0)
          (mesh.vertices.getD (face.getD 1 0) 0) (mesh.vertices.getD (face.getD 2 0) 0)
          (mesh.vertices.getD (face.getD 3 0) 0)
      · rw [if_neg (not_not_intro hconv)]
        exact ⟨fun _ => ⟨by omega, fun _ => ⟨hcop, hconv⟩⟩, fun _ => rfl⟩
      · rw [if_pos hconv]
        exact ⟨fun hs => absurd hs (by simp), fun hv => absurd (hv.2 h3).2 hconv⟩
    · rw [if_pos hcop]
      exact ⟨fun hs => absurd hs (by simp), fun hv => absurd (hv.2 h3).1 hcop⟩
  · exact ⟨fun _ => ⟨by omega, fun h4 => absurd h4 h3⟩, fun _ => by trivial⟩

/-- Claim C8: `load_mesh` returns `Ok(mesh)` exactly when every face has at
least 3 indices and every 4-index face is coplanar and convex, and returns
`Err` exactly when some face violates one of those checks. -/
theorem load_mesh_spec :
    (∀ mesh : Mesh,
        (load_mesh mesh = Except.ok mesh ↔ ∀ face ∈ mesh.indices, face_valid mesh face)) ∧
    (∀ mesh : Mesh,
        ((∃ e, load_mesh mesh = Except.error e) ↔
          ∃ face ∈ mesh.indices, ¬ face_valid mesh face)) := by
  have hnone : ∀ mesh : Mesh,
      (mesh.indices.findSome? (face_check mesh) = none ↔
        ∀ face ∈ mesh.indices, face_valid mesh face) := by
    intro mesh
    rw [List.findSome?_eq_none_iff]
    exact ⟨fun h face hf => (face_check_eq_none_iff mesh face).mp (h face hf),
      fun h face hf => (face_check_eq_none_iff mesh face).mpr (h face hf)⟩
  constructor
  · intro mesh
    unfold load_mesh
    rcases hfs : mesh.indices.findSome? (face_check mesh) with _ | e
    · simpa [hfs] using (hnone mesh).mp hfs
    · simp only [hfs]
      constructor
      · intro h; exact absurd h (by simp)
      · intro h
        have : mesh.indices.findSome? (face_check mesh) = none := (hnone mesh).mpr h
        rw [hfs] at this; exact absurd this (by simp)
  · intro mesh
    unfold load_mesh
    rcases hfs : mesh.indices.findSome? (face_check mesh) with _ | e
    · have hall := (hnone mesh).mp hfs
      simp only [hfs]
      constructor
      · rintro ⟨e, he⟩; exact absurd he (by simp)
      · rintro ⟨face, hf, hbad⟩; exact absurd (hall face hf) hbad
    · simp only [hfs]
      constructor
      · intro _
        by_contra hno
        push_neg at hno
        have : mesh.indices.findSome? (face_check mesh) = none :=
          (hnone mesh).mpr fun face hf => hno face hf
        rw [hfs] at this; exact absurd this (by simp)
      · intro _; exact ⟨e, rfl⟩

/-- Witness for C8: the empty mesh passes validation; a mesh whose only
face has two indices is rejected. -/
theorem load_mesh_spec_witness :
    load_mesh ⟨[], [], [], 0⟩ = Except.ok ⟨[], [], [], 0⟩ ∧
      ∃ e, load_mesh ⟨[], [], [[0, 1]], 0⟩ = Except.error e := by
  constructor
  · exact (load_mesh_spec.1 ⟨[], [], [], 0⟩).mpr (by simp)
  · refine (load_mesh_spec.2 ⟨[], [], [[0, 1]], 0⟩).mpr ?_
    refine ⟨[0, 1], by simp, ?_⟩
    unfold face_valid
    simp

/-! ## Claim C4: total internal reflection forces the reflect branch -/

theorem fresnel_eq_one_of_tir (cos_i eta_i eta_t : ℝ)
    (h : (eta_i / eta_t) * (eta_i / eta_t) * (1 - cos_i * cos_i) > 1) :
    fresnel cos_i eta_i eta_t = 1 := by
  unfold fresnel
  rw [if_pos h]

theorem refract_eq_none_iff (v n : Vec3) (eta : ℝ) :
    refract v n eta = none ↔ (1 - (-v).dot n * (-v).dot n) * eta * eta > 1 := by
  simp only [refract]
  split_ifs with h
  · exact ⟨fun _ => h, fun _ => rfl⟩
  · exact ⟨fun hc => absurd hc (by simp), fun hc => absurd hc h⟩

/-- Claim C4: `refract` returns `None` exactly when the squared transmitted
sine exceeds 1; whenever refraction is geometrically impossible in
`IdealDielectric::scatter`, `fresnel` returns exactly `1.0` and every
uniform sample in `[0,1)` takes the reflect branch with pdf 1; and for
samples in `[0,1)` the `None`-returning branch of `scatter` is unreachable. -/
theorem dielectric_tir_spec :
    (∀ (v n : Vec3) (eta : ℝ),
        refract v n eta = none ↔ (1 - (-v).dot n * (-v).dot n) * eta * eta > 1) ∧
    (∀ (ior : ℝ) (ray_in : Ray) (hit_point : Point3) (normal : Vec3) (r : ℝ),
        0 ≤ r → r < 1 → dielectric_sin2_t ior ray_in normal > 1 →
        fresnel (dielectric_cos ior ray_in normal)
            (dielectric_setup ior ray_in normal).1
            (dielectric_setup ior ray_in normal).2.1 = 1 ∧
          idealDielectric_scatter ior ray_in hit_point normal r =
            .scattered ⟨⟨hit_point, reflect ray_in.direction.normalize
                (dielectric_setup ior ray_in normal).2.2⟩, 1⟩) ∧
    (∀ (ior : ℝ) (ray_in : Ray) (hit_point : Point3) (normal : Vec3) (r : ℝ),
        0 ≤ r → r < 1 →
        idealDielectric_scatter ior ray_in hit_point normal r ≠ .absorbed) := by
  refine ⟨refract_eq_none_iff, ?_, ?_⟩
  · intro ior ray_in hit_point normal r h0 h1 hsin
    simp only [dielectric_sin2_t, dielectric_cos] at hsin
    have hfre : fresnel ((-(ray_in.direction.normalize)).dot
        (dielectric_setup ior ray_in normal).2.2) (dielectric_setup ior ray_in normal).1
        (dielectric_setup ior ray_in normal).2.1 = 1 :=
      fresnel_eq_one_of_tir _ _ _ hsin
    refine ⟨by simpa [dielectric_cos] using hfre, ?_⟩
    simp only [idealDielectric_scatter, hfre]
    rw [if_neg (by norm_num : ¬ (1 : ℝ) > 1), if_pos h1]
  · intro ior ray_in hit_point normal r h0 h1
    simp only [idealDielectric_scatter]
    split_ifs with hp hr
    · exact fun habs => by cases habs
    · exact fun habs => by cases habs
    · rcases hrf : refract ray_in.direction.normalize
          (dielectric_setup ior ray_in normal).2.2
          ((dielectric_setup ior ray_in normal).1 /
            (dielectric_setup ior ray_in normal).2.1) with _ | refr
      · have hsin := (refract_eq_none_iff _ _ _).mp hrf
        have hfre : fresnel ((-(ray_in.direction.normalize)).dot
            (dielectric_setup ior ray_in normal).2.2)
            (dielectric_setup ior ray_in normal).1
            (dielectric_setup ior ray_in normal).2.1 = 1 :=
          fresnel_eq_one_of_tir _ _ _ (by nlinarith [hsin])
        rw [hfre] at hr
        exact absurd h1 hr
      · exact fun habs => by cases habs

/-- Witness for C4: a grazing ray leaving a dense medium (`ior = 1/2`
relative, direction `(3/5, 4/5, 0)`, outward normal `(0, -1, 0)`) has
squared transmitted sine `36/25 > 1`, so the sample `1/2` forces the
reflect branch with reflectance exactly 1. -/
theorem dielectric_tir_spec_witness :
    (0 : ℝ) ≤ 1 / 2 ∧ (1 / 2 : ℝ) < 1 ∧
      dielectric_sin2_t (1 / 2) ⟨0, ⟨3 / 5, 4 / 5, 0⟩⟩ ⟨0, -1, 0⟩ > 1 ∧
      fresnel (dielectric_cos (1 / 2) ⟨0, ⟨3 / 5, 4 / 5, 0⟩⟩ ⟨0, -1, 0⟩)
          (dielectric_setup (1 / 2) ⟨0, ⟨3 / 5, 4 / 5, 0⟩⟩ ⟨0, -1, 0⟩).1
          (dielectric_setup (1 / 2) ⟨0, ⟨3 / 5, 4 / 5, 0⟩⟩ ⟨0, -1, 0⟩).2.1 = 1 ∧
      idealDielectric_scatter (1 / 2) ⟨0, ⟨3 / 5, 4 / 5, 0⟩⟩ 0 ⟨0, -1, 0⟩ (1 / 2) =
        .scattered ⟨⟨0, reflect (Ray.direction ⟨0, ⟨3 / 5, 4 / 5, 0⟩⟩).normalize
            (dielectric_setup (1 / 2) ⟨0, ⟨3 / 5, 4 / 5, 0⟩⟩ ⟨0, -1, 0⟩).2.2⟩, 1⟩ := by
  have hsin : dielectric_sin2_t (1 / 2) ⟨0, ⟨3 / 5, 4 / 5, 0⟩⟩ ⟨0, -1, 0⟩ > 1 := by
    have hm : Vec3.magnitude ⟨3 / 5, 4 / 5, 0⟩ = 1 := by
      simp only [Vec3.magnitude, Vec3.magnitude2, Vec3.dot]
      rw [show (3 / 5 * (3 / 5) + 4 / 5 * (4 / 5) + 0 * 0 : ℝ) = 1 by norm_num]
      exact Real.sqrt_one
    simp only [dielectric_sin2_t, dielectric_cos, dielectric_setup, Vec3.normalize, hm,
      Vec3.dot]
    norm_num
  have h2 := dielectric_tir_spec.2.1 (1 / 2) ⟨0, ⟨3 / 5, 4 / 5, 0⟩⟩ 0 ⟨0, -1, 0⟩ (1 / 2)
    (by norm_num) (by norm_num) hsin
  exact ⟨by norm_num, by norm_num, hsin, h2.1, h2.2⟩

/-! ## Claim C7: Fresnel reciprocity -/

theorem fresnel_symmetric_aux (c1 ei et : ℝ) (hei : ei ≠ 0) (het : et ≠ 0)
    (hc : 0 ≤ c1) (hs : (ei / et) * (ei / et) * (1 - c1 * c1) ≤ 1) :
    fresnel c1 ei et =
      fresnel (Real.sqrt (1 - (ei / et) * (ei / et) * (1 - c1 * c1))) et ei := by
  have h1S : 0 ≤ 1 - (ei / et) * (ei / et) * (1 - c1 * c1) := by linarith
  set S := (ei / et) * (ei / et) * (1 - c1 * c1) with hS
  set C2 := Real.sqrt (1 - S) with hC2
  have hC2sq : C2 * C2 = 1 - S := Real.mul_self_sqrt h1S
  have harg : 1 - (et / ei) * (et / ei) * (1 - C2 * C2) = c1 * c1 := by
    rw [hC2sq, hS]
    field_simp
    ring
  have hcos2 : Real.sqrt (1 - (et / ei) * (et / ei) * (1 - C2 * C2)) = c1 := by
    rw [harg]
    exact Real.sqrt_mul_self hc
  have hguard2 : ¬ (et / ei) * (et / ei) * (1 - C2 * C2) > 1 := by
    have : (et / ei) * (et / ei) * (1 - C2 * C2) = 1 - c1 * c1 := by linarith [harg]
    rw [this]
    nlinarith [sq_nonneg c1]
  simp only [fresnel]
  rw [if_neg (not_lt.mpr hs), if_neg hguard2, hcos2]
  have e1 : (ei * C2 - et * c1) / (ei * C2 + et * c1) =
      -((et * c1 - ei * C2) / (et * c1 + ei * C2)) := by
    rw [show ei * C2 - et * c1 = -(et * c1 - ei * C2) by ring,
      add_comm (ei * C2) (et * c1), neg_div]
  have e2 : (et * C2 - ei * c1) / (et * C2 + ei * c1) =
      -((ei * c1 - et * C2) / (ei * c1 + et * C2)) := by
    rw [show et * C2 - ei * c1 = -(ei * c1 - et * C2) by ring,
      add_comm (et * C2) (ei * c1), neg_div]
  rw [e1, e2]
  ring

/-- Claim C7: when transmission exists, `fresnel` is symmetric under
swapping the media and replacing the incidence cosine by the transmitted
cosine obtained from `refract`; at total internal reflection it returns
exactly `1.0`. -/
theorem fresnel_symmetry_spec :
    (∀ (v n : Vec3) (eta_i eta_t : ℝ) (rvec : Vec3),
        n.magnitude2 = 1 → eta_i ≠ 0 → eta_t ≠ 0 → 0 ≤ (-v).dot n →
        refract v n (eta_i / eta_t) = some rvec →
        fresnel ((-v).dot n) eta_i eta_t = fresnel (rvec.dot (-n)) eta_t eta_i) ∧
    (∀ (cos_i eta_i eta_t : ℝ),
        (eta_i / eta_t) * (eta_i / eta_t) * (1 - cos_i * cos_i) > 1 →
        fresnel cos_i eta_i eta_t = 1) := by
  refine ⟨?_, fresnel_eq_one_of_tir⟩
  intro v n ei et rvec hn hei het hc href
  simp only [refract] at href
  split_ifs at href with hgt
  have hrv : rvec = (ei / et) • v +
      ((ei / et) * (-v).dot n -
        Real.sqrt (1 - (1 - (-v).dot n * (-v).dot n) * (ei / et) * (ei / et))) • n := by
    exact (Option.some_injective _ href).symm
  have hvn : v.dot n = -((-v).dot n) := by
    simp [Vec3.dot]
    ring
  have hnn : n.dot n = 1 := hn
  have hdot : rvec.dot (-n) =
      Real.sqrt (1 - (1 - (-v).dot n * (-v).dot n) * (ei / et) * (ei / et)) := by
    rw [hrv]
    simp only [Vec3.dot, Vec3.add_def, Vec3.smul_def, Vec3.neg_def] at hvn hnn ⊢
    linear_combination (-(ei / et)) * hvn +
      (Real.sqrt (1 - (1 - (-v.x * n.x + -v.y * n.y + -v.z * n.z) *
            (-v.x * n.x + -v.y * n.y + -v.z * n.z)) * (ei / et) * (ei / et)) -
          ei / et * (-v.x * n.x + -v.y * n.y + -v.z * n.z)) * hnn
  rw [hdot]
  have hargs : 1 - (1 - (-v).dot n * (-v).dot n) * (ei / et) * (ei / et) =
      1 - (ei / et) * (ei / et) * (1 - (-v).dot n * (-v).dot n) := by ring
  rw [hargs]
  exact fresnel_symmetric_aux ((-v).dot n) ei et hei het hc
    (by nlinarith [hgt])

/-- Witness for C7 at normal incidence from medium 3 into medium 5: the
refracted direction is `(3/5, -4/5, 0)` and the two fresnel evaluations
agree. -/
theorem fresnel_symmetry_spec_witness :
    Vec3.magnitude2 ⟨0, 1, 0⟩ = 1 ∧ (3 : ℝ) ≠ 0 ∧ (5 : ℝ) ≠ 0 ∧
      0 ≤ (-(⟨1, 0, 0⟩ : Vec3)).dot ⟨0, 1, 0⟩ ∧
      refract ⟨1, 0, 0⟩ ⟨0, 1, 0⟩ (3 / 5) = some ⟨3 / 5, -(4 / 5), 0⟩ ∧
      fresnel ((-(⟨1, 0, 0⟩ : Vec3)).dot ⟨0, 1, 0⟩) 3 5 =
        fresnel ((⟨3 / 5, -(4 / 5), 0⟩ : Vec3).dot (-(⟨0, 1, 0⟩ : Vec3))) 5 3 := by
  have hm : Vec3.magnitude2 ⟨0, 1, 0⟩ = 1 := by norm_num [Vec3.magnitude2, Vec3.dot]
  have hc : 0 ≤ (-(⟨1, 0, 0⟩ : Vec3)).dot ⟨0, 1, 0⟩ := by
    norm_num [Vec3.dot]
  have hdotv : ((-(⟨1, 0, 0⟩ : Vec3)).dot ⟨0, 1, 0⟩) = 0 := by
    norm_num [Vec3.dot]
  have hrefr : refract ⟨1, 0, 0⟩ ⟨0, 1, 0⟩ (3 / 5) = some ⟨3 / 5, -(4 / 5), 0⟩ := by
    simp only [refract, hdotv]
    rw [if_neg (by norm_num)]
    have h45 : Real.sqrt (1 - (1 - 0 * 0) * (3 / 5) * (3 / 5)) = 4 / 5 := by
      rw [show (1 - (1 - 0 * 0) * (3 / 5) * (3 / 5) : ℝ) = (4 / 5) ^ 2 by norm_num]
      exact Real.sqrt_sq (by norm_num)
    rw [h45]
    congr 1
    ext <;> norm_num
  exact ⟨hm, by norm_num, by norm_num, hc,
    hrefr, fresnel_symmetry_spec.1 ⟨1, 0, 0⟩ ⟨0, 1, 0⟩ 3 5 ⟨3 / 5, -(4 / 5), 0⟩ hm
      (by norm_num) (by norm_num) hc hrefr⟩

/-! ## Claim C1: analytic and geometric sphere solvers agree -/

theorem sphere_branch_eq (t_min t_max A B : ℝ) (hAB : A ≤ B)
    (mk : ℝ → Option HitRecord) :
    (if A < t_min ∨ A > t_max then (if B < t_min ∨ B > t_max then none else mk B)
     else mk A) =
    (if A < t_min then
        (if B < t_min then none else if B > t_max then none else mk B)
      else if A > t_max then none else mk A) := by
  by_cases d1 : A < t_min
  · rw [if_pos (Or.inl d1), if_pos d1]
    by_cases d2 : B < t_min
    · rw [if_pos (Or.inl d2), if_pos d2]
    · rw [if_neg d2]
      by_cases d3 : B > t_max
      · rw [if_pos (Or.inr d3), if_pos d3]
      · rw [if_neg (not_or.mpr ⟨d2, d3⟩), if_neg d3]
  · rw [if_neg d1]
    by_cases d4 : A > t_max
    · rw [if_pos (Or.inr d4), if_pos d4,
        if_pos (Or.inr (lt_of_lt_of_le d4 hAB))]
    · rw [if_neg (not_or.mpr ⟨d1, d4⟩), if_neg d4]

/-- Claim C1: for a unit-direction ray the analytic (quadratic formula) and
geometric (projection) sphere solvers return identical results — both
`none`, or hits with identical `t`, point and normal (exact equality over
the reals, hence within every tolerance). -/
theorem sphere_solvers_agree (s : Sphere) (ray : Ray) (t_min t_max : ℝ)
    (hd : ray.direction.magnitude2 = 1) :
    s.intersect_analytic ray t_min t_max = s.intersect_geometric ray t_min t_max := by
  have hca : (s.center - ray.origin).dot ray.direction =
      -((ray.origin - s.center).dot ray.direction) := by
    simp [Vec3.dot]
    ring
  have hl2 : (s.center - ray.origin).magnitude2 =
      (ray.origin - s.center).magnitude2 := by
    simp [Vec3.magnitude2, Vec3.dot]
    ring
  simp only [Sphere.intersect_analytic, Sphere.intersect_geometric, hd, hca, hl2]
  set q := (ray.origin - s.center).dot ray.direction with hqdef
  set m := (ray.origin - s.center).magnitude2 with hmdef
  set r := s.radius with hrdef
  have hcs := Vec3.dot_sq_le (ray.origin - s.center) ray.direction
  rw [hd] at hcs
  have hqm : q * q ≤ m := by nlinarith [hcs]
  have harg : r * r - (m - -q * -q) = q * q - 1 * (m - r * r) := by ring
  rw [harg]
  set D := q * q - 1 * (m - r * r) with hDdef
  set S := Real.sqrt D with hSdef
  have hSnn : 0 ≤ S := Real.sqrt_nonneg D
  by_cases hg : D < 0
  · rw [if_pos hg, if_pos (Or.inr (show m - -q * -q > r * r by nlinarith [hg]))]
  · rw [if_neg hg,
      if_neg (show ¬(m - -q * -q < 0 ∨ m - -q * -q > r * r) from
        not_or.mpr ⟨by push_neg; nlinarith [hqm], by push_neg; nlinarith [not_lt.mp hg]⟩)]
    rw [if_neg (show ¬(-q - S > -q + S) by push_neg; linarith [hSnn]),
      if_neg (show ¬(-q - S > -q + S) by push_neg; linarith [hSnn])]
    simp only [div_one]
    exact sphere_branch_eq t_min t_max (-q - S) (-q + S) (by linarith [hSnn])
      (fun t => some ⟨t, ray.at t, (ray.at t - s.center) / r, s.material⟩)

/-- Witness for C1: the unit ray from `(0,0,-3)` toward `+z` against the
unit sphere at the origin. -/
theorem sphere_solvers_agree_witness :
    Vec3.magnitude2 ⟨0, 0, 1⟩ = 1 ∧
      Sphere.intersect_analytic ⟨⟨0, 0, 0⟩, 1, 0⟩ ⟨⟨0, 0, -3⟩, ⟨0, 0, 1⟩⟩ 0 100 =
        Sphere.intersect_geometric ⟨⟨0, 0, 0⟩, 1, 0⟩ ⟨⟨0, 0, -3⟩, ⟨0, 0, 1⟩⟩ 0 100 := by
  have hm : Vec3.magnitude2 ⟨0, 0, 1⟩ = 1 := by norm_num [Vec3.magnitude2, Vec3.dot]
  exact ⟨hm, sphere_solvers_agree ⟨⟨0, 0, 0⟩, 1, 0⟩ ⟨⟨0, 0, -3⟩, ⟨0, 0, 1⟩⟩ 0 100 hm⟩

/-! ## Claim C6: hit records carry unit normals and in-window parameters -/

theorem Vec3.magnitude2_divScalar (v : Vec3) (r : ℝ) :
    (v / r).magnitude2 = v.magnitude2 / (r * r) := by
  simp only [Vec3.div_def, Vec3.magnitude2, Vec3.dot, division_def, mul_inv]
  ring

theorem Vec3.magnitude_eq_one (v : Vec3) (h : v.magnitude2 = 1) : v.magnitude = 1 := by
  rw [Vec3.magnitude, h]
  exact Real.sqrt_one

theorem Vec3.normalize_magnitude (v : Vec3) (h : v ≠ 0) : v.normalize.magnitude = 1 := by
  have h2 : v.magnitude2 ≠ 0 := fun hz => h ((Vec3.magnitude2_eq_zero_iff v).mp hz)
  apply Vec3.magnitude_eq_one
  rw [Vec3.normalize, Vec3.magnitude2_divScalar, Vec3.magnitude,
    Real.mul_self_sqrt (Vec3.magnitude2_nonneg v)]
  exact div_self h2

theorem Vec3.dot_cross_comm (a b c : Vec3) : a.dot (b.cross c) = b.dot (c.cross a) := by
  simp only [Vec3.dot, Vec3.cross]
  ring

theorem Vec3.cross_antisymm (a b : Vec3) : a.cross b = -(b.cross a) := by
  simp only [Vec3.cross, Vec3.neg_def]
  ext <;> dsimp <;> ring

theorem at_sub_center_mag2 (s : Sphere) (ray : Ray) (t : ℝ)
    (hd : ray.direction.magnitude2 = 1) :
    (ray.at t - s.center).magnitude2 =
      (ray.origin - s.center).magnitude2 +
        2 * t * ((ray.origin - s.center).dot ray.direction) + t * t := by
  have hdc : ray.direction.x * ray.direction.x + ray.direction.y * ray.direction.y +
      ray.direction.z * ray.direction.z = 1 := hd
  simp only [Ray.at, Vec3.magnitude2, Vec3.dot, Vec3.add_def, Vec3.sub_def, Vec3.smul_def]
  linear_combination (t * t) * hdc

theorem sphere_normal_unit (s : Sphere) (ray : Ray) (t : ℝ)
    (hd : ray.direction.magnitude2 = 1) (hr0 : s.radius ≠ 0)
    (hmag : (ray.at t - s.center).magnitude2 = s.radius * s.radius) :
    ((ray.at t - s.center) / s.radius).magnitude = 1 := by
  apply Vec3.magnitude_eq_one
  rw [Vec3.magnitude2_divScalar, hmag]
  exact div_self (mul_ne_zero hr0 hr0)

theorem sphere_hit_invariant (s : Sphere) (ray : Ray) (t_min t_max : ℝ)
    (hr : HitRecord) (hd : ray.direction.magnitude2 = 1) (hr0 : s.radius ≠ 0)
    (h : s.intersect_geometric ray t_min t_max = some hr) :
    hr.normal.magnitude = 1 ∧ t_min ≤ hr.t ∧ hr.t ≤ t_max := by
  have hq : (ray.origin - s.center).dot ray.direction =
      -((s.center - ray.origin).dot ray.direction) := by
    simp [Vec3.dot]
    ring
  have hm : (ray.origin - s.center).magnitude2 =
      (s.center - ray.origin).magnitude2 := by
    simp [Vec3.magnitude2, Vec3.dot]
    ring
  simp only [Sphere.intersect_geometric] at h
  set tca := (s.center - ray.origin).dot ray.direction with htca
  set l2 := (s.center - ray.origin).magnitude2 with hl2
  set S := Real.sqrt (s.radius * s.radius - (l2 - tca * tca)) with hSdef
  have hSnn : 0 ≤ S := Real.sqrt_nonneg _
  rw [if_neg (show ¬(tca - S > tca + S) by push_neg; linarith),
    if_neg (show ¬(tca - S > tca + S) by push_neg; linarith)] at h
  split_ifs at h with hg h1 h2 h3 h4
  all_goals (
    have hS2 : S * S = s.radius * s.radius - (l2 - tca * tca) := by
      rw [hSdef]
      exact Real.mul_self_sqrt (by push_neg at hg; linarith [hg.2])
    have hrec := Option.some_injective _ h
    subst hrec)
  · refine ⟨?_, by linarith [not_lt.mp h2], by linarith [not_lt.mp h3]⟩
    apply sphere_normal_unit s ray _ hd hr0
    rw [at_sub_center_mag2 s ray _ hd, hq, hm]
    linear_combination hS2
  · refine ⟨?_, by linarith [not_lt.mp h1], by linarith [not_lt.mp h4]⟩
    apply sphere_normal_unit s ray _ hd hr0
    rw [at_sub_center_mag2 s ray _ hd, hq, hm]
    linear_combination hS2

theorem plane_hit_invariant (pl : ShapePlane) (ray : Ray) (t_min t_max : ℝ)
    (hr : ShapeHit) (hn : pl.normal.magnitude = 1)
    (h : pl.intersect ray t_min t_max = some hr) :
    hr.normal.magnitude = 1 ∧ t_min ≤ hr.t ∧ hr.t ≤ t_max := by
  simp only [ShapePlane.intersect] at h
  split_ifs at h with hpar hwin
  have hrec := Option.some_injective _ h
  subst hrec
  push_neg at hwin
  exact ⟨hn, hwin.1, hwin.2⟩

theorem triangle_hit_invariant (tri : Triangle) (ray : Ray) (t_min t_max : ℝ)
    (hr : ShapeHit) (h : tri.intersect ray t_min t_max = some hr) :
    hr.normal.magnitude = 1 ∧ t_min ≤ hr.t ∧ hr.t ≤ t_max := by
  simp only [Triangle.intersect] at h
  rcases htri : triangle_intersect (tri.vertices 0) (tri.vertices 1) (tri.vertices 2)
      ray t_min t_max with _ | tuv
  · rw [htri] at h
    exact absurd h (by simp)
  · rw [htri] at h
    obtain ⟨t, u, v⟩ := tuv
    have hrec := Option.some_injective _ h
    subst hrec
    simp only [triangle_intersect] at htri
    split_ifs at htri with ha hu hv ht
    have htuv := Option.some_injective _ htri
    have hteq : (1 / ((tri.vertices 1 - tri.vertices 0).dot
        (ray.direction.cross (tri.vertices 2 - tri.vertices 0)))) *
          ((tri.vertices 2 - tri.vertices 0).dot
            ((ray.origin - tri.vertices 0).cross (tri.vertices 1 - tri.vertices 0))) = t := by
      exact congrArg Prod.fst htuv
    refine ⟨?_, ?_, ?_⟩
    · apply Vec3.normalize_magnitude
      intro hcr
      apply ha
      have htriple : (tri.vertices 1 - tri.vertices 0).dot
          (ray.direction.cross (tri.vertices 2 - tri.vertices 0)) =
            ray.direction.dot ((tri.vertices 2 - tri.vertices 0).cross
              (tri.vertices 1 - tri.vertices 0)) := by
        rw [Vec3.dot_cross_comm]
      rw [htriple, Vec3.cross_antisymm, hcr]
      simp only [Vec3.neg_def, Vec3.dot]
      norm_num
    · rw [hteq] at ht
      exact le_of_lt ht.1
    · rw [hteq] at ht
      exact le_of_lt ht.2

/-- Claim C6: for unit-direction rays, every `Some(HitRecord)` returned by
the sphere (geometric), plane, or triangle intersector has a unit-length
normal and a hit parameter inside the query window.  The sphere's radius
and the plane's stored normal satisfy their construction invariants
(nonzero radius, unit normal). -/
theorem hit_record_invariants :
    (∀ (s : Sphere) (ray : Ray) (t_min t_max : ℝ) (hr : HitRecord),
        ray.direction.magnitude2 = 1 → s.radius ≠ 0 →
        s.intersect_geometric ray t_min t_max = some hr →
        hr.normal.magnitude = 1 ∧ t_min ≤ hr.t ∧ hr.t ≤ t_max) ∧
    (∀ (pl : ShapePlane) (ray : Ray) (t_min t_max : ℝ) (hr : ShapeHit),
        ray.direction.magnitude2 = 1 → pl.normal.magnitude = 1 →
        pl.intersect ray t_min t_max = some hr →
        hr.normal.magnitude = 1 ∧ t_min ≤ hr.t ∧ hr.t ≤ t_max) ∧
    (∀ (tri : Triangle) (ray : Ray) (t_min t_max : ℝ) (hr : ShapeHit),
        ray.direction.magnitude2 = 1 →
        tri.intersect ray t_min t_max = some hr →
        hr.normal.magnitude = 1 ∧ t_min ≤ hr.t ∧ hr.t ≤ t_max) :=
  ⟨fun s ray t_min t_max hr hd hr0 h => sphere_hit_invariant s ray t_min t_max hr hd hr0 h,
    fun pl ray t_min t_max hr _ hn h => plane_hit_invariant pl ray t_min t_max hr hn h,
    fun tri ray t_min t_max hr _ h => triangle_hit_invariant tri ray t_min t_max hr h⟩

/-- Witness for C6 on the plane facing the `-z` unit ray. -/
theorem hit_record_invariants_witness :
    Vec3.magnitude2 ⟨0, 0, -1⟩ = 1 ∧
      Vec3.magnitude ⟨0, 0, 1⟩ = 1 ∧
      ShapePlane.intersect ⟨⟨0, 0, 0⟩, ⟨0, 0, 1⟩⟩ ⟨⟨0, 0, 5⟩, ⟨0, 0, -1⟩⟩ 0 100 =
        some ⟨5, ⟨0, 0, 0⟩, ⟨0, 0, 1⟩⟩ ∧
      ((⟨5, ⟨0, 0, 0⟩, ⟨0, 0, 1⟩⟩ : ShapeHit).normal.magnitude = 1 ∧
        (0 : ℝ) ≤ (⟨5, ⟨0, 0, 0⟩, ⟨0, 0, 1⟩⟩ : ShapeHit).t ∧
        (⟨5, ⟨0, 0, 0⟩, ⟨0, 0, 1⟩⟩ : ShapeHit).t ≤ 100) := by
  have hd : Vec3.magnitude2 ⟨0, 0, -1⟩ = 1 := by norm_num [Vec3.magnitude2, Vec3.dot]
  have hn : Vec3.magnitude ⟨0, 0, 1⟩ = 1 := by
    apply Vec3.magnitude_eq_one
    norm_num [Vec3.magnitude2, Vec3.dot]
  have hint : ShapePlane.intersect ⟨⟨0, 0, 0⟩, ⟨0, 0, 1⟩⟩ ⟨⟨0, 0, 5⟩, ⟨0, 0, -1⟩⟩ 0 100 =
      some ⟨5, ⟨0, 0, 0⟩, ⟨0, 0, 1⟩⟩ := by
    have hden : Vec3.dot ⟨0, 0, 1⟩ ⟨0, 0, -1⟩ = -1 := by norm_num [Vec3.dot]
    simp only [ShapePlane.intersect, hden]
    rw [if_neg (by norm_num), if_neg (by norm_num [Vec3.dot])]
    have h5 : Vec3.dot ((⟨0, 0, 0⟩ : Vec3) - ⟨0, 0, 5⟩) ⟨0, 0, 1⟩ / (-1) = 5 := by
      norm_num [Vec3.dot]
    rw [h5]
    congr 1
    simp only [ShapeHit.mk.injEq]
    refine ⟨trivial, ?_, trivial⟩
    ext <;> simp [Ray.at] <;> norm_num
  exact ⟨hd, hn, hint,
    hit_record_invariants.2.1 ⟨⟨0, 0, 0⟩, ⟨0, 0, 1⟩⟩ ⟨⟨0, 0, 5⟩, ⟨0, 0, -1⟩⟩ 0 100
      ⟨5, ⟨0, 0, 0⟩, ⟨0, 0, 1⟩⟩ hd hn hint⟩

/-! ## Claim C5: the scene scan finds the global nearest hit -/

theorem window_pick_mem (ta tb t_min t_max t : ℝ)
    (h : window_pick ta tb t_min t_max = some t) : t_min ≤ t ∧ t ≤ t_max := by
  unfold window_pick at h
  split_ifs at h with h1 h2 h3 h4
  · have := Option.some_injective _ h
    subst this
    exact ⟨not_lt.mp h2, not_lt.mp h3⟩
  · have := Option.some_injective _ h
    subst this
    exact ⟨not_lt.mp h1, not_lt.mp h4⟩

theorem window_pick_expand (ta tb t_min t_max t_max2 t : ℝ) (hle : t_max ≤ t_max2)
    (h : window_pick ta tb t_min t_max = some t) :
    window_pick ta tb t_min t_max2 = some t := by
  unfold window_pick at h ⊢
  split_ifs at h with h1 h2 h3 h4
  · have := Option.some_injective _ h
    subst this
    rw [if_pos h1, if_neg h2, if_neg (by linarith [not_lt.mp h3])]
  · have := Option.some_injective _ h
    subst this
    rw [if_neg h1, if_neg (by linarith [not_lt.mp h4])]

theorem window_pick_none (ta tb t_min t_max t_max2 t : ℝ) (hle : t_max ≤ t_max2)
    (hn : window_pick ta tb t_min t_max = none)
    (h : window_pick ta tb t_min t_max2 = some t) : t > t_max := by
  unfold window_pick at hn h
  split_ifs at hn h <;> (cases h <;> linarith)

theorem object_window_facts (o : Object) (ray : Ray) :
    ∃ (g : Prop) (ta tb : ℝ) (mk : ℝ → HitRecord), ta ≤ tb ∧ (∀ t, (mk t).t = t) ∧
      ∀ t_min t_max, o.intersect ray t_min t_max =
        if g then none else Option.map mk (window_pick ta tb t_min t_max) := by
  cases o with
  | sphere s =>
    set tca := (s.center - ray.origin).dot ray.direction with htca
    set l2 := (s.center - ray.origin).magnitude2 with hl2
    set S := Real.sqrt (s.radius * s.radius - (l2 - tca * tca)) with hSdef
    have hSnn : 0 ≤ S := Real.sqrt_nonneg _
    refine ⟨l2 - tca * tca < 0 ∨ l2 - tca * tca > s.radius * s.radius,
      tca - S, tca + S,
      fun t => ⟨t, ray.at t, (ray.at t - s.center) / s.radius, s.material⟩,
      by linarith, fun t => rfl, ?_⟩
    intro t_min t_max
    simp only [Object.intersect, Sphere.intersect, Sphere.intersect_geometric]
    rw [if_neg (show ¬(tca - S > tca + S) by push_neg; linarith),
      if_neg (show ¬(tca - S > tca + S) by push_neg; linarith)]
    by_cases hg : l2 - tca * tca < 0 ∨ l2 - tca * tca > s.radius * s.radius
    · rw [if_pos hg, if_pos hg]
    · rw [if_neg hg, if_neg hg]
      unfold window_pick
      split_ifs <;> rfl
  | plane p =>
    refine ⟨|p.normal.dot ray.direction| < 1e-6,
      (p.point - ray.origin).dot p.normal / p.normal.dot ray.direction,
      (p.point - ray.origin).dot p.normal / p.normal.dot ray.direction,
      fun t => ⟨t, ray.at t, p.normal, p.material⟩, le_refl _, fun t => rfl, ?_⟩
    intro t_min t_max
    simp only [Object.intersect, Plane.intersect]
    set dist := (p.point - ray.origin).dot p.normal / p.normal.dot ray.direction with hdist
    by_cases hg : |p.normal.dot ray.direction| < 1e-6
    · rw [if_pos hg, if_pos hg]
    · rw [if_neg hg, if_neg hg]
      by_cases h1 : dist < t_min
      · rw [if_pos (Or.inl h1)]
        unfold window_pick
        rw [if_pos h1, if_pos h1]
        rfl
      · by_cases h2 : dist > t_max
        · rw [if_pos (Or.inr h2)]
          unfold window_pick
          rw [if_neg h1, if_pos h2]
          rfl
        · rw [if_neg (not_or.mpr ⟨h1, h2⟩)]
          unfold window_pick
          rw [if_neg h1, if_neg h2]
          rfl

theorem object_t_mem (o : Object) (ray : Ray) (t_min t_max : ℝ) (h : HitRecord)
    (hint : o.intersect ray t_min t_max = some h) : t_min ≤ h.t ∧ h.t ≤ t_max := by
  obtain ⟨g, ta, tb, mk, hab, hmk, heq⟩ := object_window_facts o ray
  rw [heq] at hint
  split_ifs at hint with hg
  rcases hwp : window_pick ta tb t_min t_max with _ | t <;> rw [hwp] at hint
  · exact absurd hint (by simp)
  · simp only [Option.map] at hint
    have hrec := Option.some_injective _ hint
    have htm := window_pick_mem _ _ _ _ _ hwp
    rw [← hrec, hmk t]
    exact htm

theorem object_expand (o : Object) (ray : Ray) (t_min t_max t_max2 : ℝ)
    (h : HitRecord) (hle : t_max ≤ t_max2)
    (hint : o.intersect ray t_min t_max = some h) :
    o.intersect ray t_min t_max2 = some h := by
  obtain ⟨g, ta, tb, mk, hab, hmk, heq⟩ := object_window_facts o ray
  rw [heq] at hint ⊢
  split_ifs at hint with hg
  rw [if_neg hg]
  rcases hwp : window_pick ta tb t_min t_max with _ | t <;> rw [hwp] at hint
  · exact absurd hint (by simp)
  · rw [window_pick_expand ta tb t_min t_max t_max2 t hle hwp]
    exact hint

theorem object_none_window (o : Object) (ray : Ray) (t_min t_max t_max2 : ℝ)
    (h2 : HitRecord) (hle : t_max ≤ t_max2)
    (hnone : o.intersect ray t_min t_max = none)
    (hint : o.intersect ray t_min t_max2 = some h2) : h2.t > t_max := by
  obtain ⟨g, ta, tb, mk, hab, hmk, heq⟩ := object_window_facts o ray
  rw [heq] at hnone hint
  split_ifs at hnone hint with hg
  rcases hwp : window_pick ta tb t_min t_max with _ | t <;> rw [hwp] at hnone
  · rcases hwp2 : window_pick ta tb t_min t_max2 with _ | t2 <;> rw [hwp2] at hint
    · exact absurd hint (by simp)
    · simp only [Option.map] at hint
      have hrec := Option.some_injective _ hint
      rw [← hrec, hmk t2]
      exact window_pick_none ta tb t_min t_max t_max2 t2 hle hwp hwp2
  · exact absurd hnone (by simp)

theorem scene_intersect_aux_spec (ray : Ray) :
    ∀ (objs : List Object) (closest : ℝ) (best : Option HitRecord),
      closest ≤ f32_max →
      (∀ h0, best = some h0 → h0.t = closest) →
      (best = none → closest = f32_max) →
      ((scene_intersect_aux ray objs closest best = none ↔
          best = none ∧ ∀ o ∈ objs, o.intersect ray scene_t_min f32_max = none) ∧
        (∀ h, scene_intersect_aux ray objs closest best = some h →
          (best = some h ∨ ∃ o ∈ objs, o.intersect ray scene_t_min f32_max = some h) ∧
          (∀ o ∈ objs, ∀ h2, o.intersect ray scene_t_min f32_max = some h2 →
            h.t ≤ h2.t) ∧
          (∀ h0, best = some h0 → h.t ≤ h0.t) ∧
          h.t ≤ closest)) := by
  intro objs
  induction objs with
  | nil =>
    intro closest best hcl hbt hbn
    refine ⟨⟨fun hres => ⟨hres, by simp⟩, fun hx => hx.1⟩, ?_⟩
    intro h hres
    have hres2 : best = some h := hres
    refine ⟨Or.inl hres2, by simp, ?_, le_of_eq (hbt h hres2)⟩
    intro h0 hb
    rw [hres2] at hb
    rw [Option.some_injective _ hb]
  | cons o rest ih =>
    intro closest best hcl hbt hbn
    by_cases hoi : ∃ temp, o.intersect ray scene_t_min closest = some temp
    · obtain ⟨temp, htemp⟩ := hoi
      have hmem := object_t_mem o ray scene_t_min closest temp htemp
      have hstep : scene_intersect_aux ray (o :: rest) closest best =
          scene_intersect_aux ray rest temp.t (some temp) := by
        simp only [scene_intersect_aux, htemp]
      have hfull : o.intersect ray scene_t_min f32_max = some temp :=
        object_expand o ray scene_t_min closest f32_max temp hcl htemp
      have ihx := ih temp.t (some temp) (le_trans hmem.2 hcl)
        (fun h0 hb => by rw [Option.some_injective _ hb]) (fun hb => by cases hb)
      constructor
      · rw [hstep]
        constructor
        · intro hres
          have := (ihx.1.mp hres).1
          exact absurd this (by simp)
        · rintro ⟨hb, hall⟩
          exact absurd (hall o (by simp)) (by rw [hfull]; simp)
      · intro h hres
        rw [hstep] at hres
        obtain ⟨hsrc, hmin, hbest, hle⟩ := ihx.2 h hres
        have hht : h.t ≤ temp.t := hbest temp rfl
        refine ⟨?_, ?_, ?_, ?_⟩
        · rcases hsrc with hsrc | ⟨o2, ho2, hsome⟩
          · have heh := Option.some_injective _ hsrc
            exact Or.inr ⟨o, by simp, by rw [heh] at hfull; exact hfull⟩
          · exact Or.inr ⟨o2, by simp [ho2], hsome⟩
        · intro o2 ho2 h2 hsome2
          rcases List.mem_cons.mp ho2 with rfl | ho2r
          · have : h2 = temp := by
              have := hfull.symm.trans hsome2
              exact (Option.some_injective _ this).symm
            rw [this]
            exact hht
          · exact hmin o2 ho2r h2 hsome2
        · intro h0 hb
          have hc := hbt h0 hb
          refine le_trans hle ?_
          rw [hc]
          exact hmem.2
        · exact le_trans hle hmem.2
    · have hnone : o.intersect ray scene_t_min closest = none := by
        rcases hn : o.intersect ray scene_t_min closest with _ | temp
        · rfl
        · exact absurd ⟨temp, hn⟩ hoi
      have hstep : scene_intersect_aux ray (o :: rest) closest best =
          scene_intersect_aux ray rest closest best := by
        simp only [scene_intersect_aux, hnone]
      have ihx := ih closest best hcl hbt hbn
      constructor
      · rw [hstep]
        constructor
        · intro hres
          obtain ⟨hb, hall⟩ := ihx.1.mp hres
          refine ⟨hb, ?_⟩
          intro o2 ho2
          rcases List.mem_cons.mp ho2 with rfl | ho2r
          · rw [hbn hb] at hnone
            exact hnone
          · exact hall o2 ho2r
        · rintro ⟨hb, hall⟩
          exact ihx.1.mpr ⟨hb, fun o2 ho2 => hall o2 (by simp [ho2])⟩
      · intro h hres
        rw [hstep] at hres
        obtain ⟨hsrc, hmin, hbest, hle⟩ := ihx.2 h hres
        refine ⟨?_, ?_, hbest, hle⟩
        · rcases hsrc with hsrc | ⟨o2, ho2, hsome⟩
          · exact Or.inl hsrc
          · exact Or.inr ⟨o2, by simp [ho2], hsome⟩
        · intro o2 ho2 h2 hsome2
          rcases List.mem_cons.mp ho2 with rfl | ho2r
          · have := object_none_window o2 ray scene_t_min closest f32_max h2 hcl
              hnone hsome2
            linarith
          · exact hmin o2 ho2r h2 hsome2

theorem scene_intersect_characterization (objects : List Object) (ray : Ray) :
    match scene_intersect objects ray with
    | none => ∀ o ∈ objects, o.intersect ray scene_t_min f32_max = none
    | some h => (∃ o ∈ objects, o.intersect ray scene_t_min f32_max = some h) ∧
        ∀ o ∈ objects, ∀ h2, o.intersect ray scene_t_min f32_max = some h2 →
          h.t ≤ h2.t := by
  have hx := scene_intersect_aux_spec ray objects f32_max none (le_refl _)
    (fun h0 hb => by cases hb) (fun _ => rfl)
  rcases hres : scene_intersect objects ray with _ | h
  · exact (hx.1.mp hres).2
  · obtain ⟨hsrc, hmin, _, _⟩ := hx.2 h hres
    refine ⟨?_, hmin⟩
    rcases hsrc with hcontra | hsrc
    · cases hcontra
    · exact hsrc

theorem scene_intersect_perm (objects objects2 : List Object) (ray : Ray)
    (hperm : objects.Perm objects2) :
    Option.map HitRecord.t (scene_intersect objects ray) =
      Option.map HitRecord.t (scene_intersect objects2 ray) := by
  rcases hr1 : scene_intersect objects ray with _ | a <;>
    rcases hr2 : scene_intersect objects2 ray with _ | b
  all_goals
    have h1 := scene_intersect_characterization objects ray
  all_goals
    have h2 := scene_intersect_characterization objects2 ray
  all_goals
    rw [hr1] at h1
  all_goals
    rw [hr2] at h2
  · have h1c : ∀ o ∈ objects, o.intersect ray scene_t_min f32_max = none := h1
    have h2c : (∃ o ∈ objects2, o.intersect ray scene_t_min f32_max = some b) ∧
        ∀ o ∈ objects2, ∀ hh, o.intersect ray scene_t_min f32_max = some hh →
          b.t ≤ hh.t := h2
    obtain ⟨⟨o, ho, hsome⟩, _⟩ := h2c
    have hcontr := h1c o (hperm.mem_iff.mpr ho)
    rw [hcontr] at hsome
    cases hsome
  · have h2c : ∀ o ∈ objects2, o.intersect ray scene_t_min f32_max = none := h2
    have h1c : (∃ o ∈ objects, o.intersect ray scene_t_min f32_max = some a) ∧
        ∀ o ∈ objects, ∀ hh, o.intersect ray scene_t_min f32_max = some hh →
          a.t ≤ hh.t := h1
    obtain ⟨⟨o, ho, hsome⟩, _⟩ := h1c
    have hcontr := h2c o (hperm.mem_iff.mp ho)
    rw [hcontr] at hsome
    cases hsome
  · have h1c : (∃ o ∈ objects, o.intersect ray scene_t_min f32_max = some a) ∧
        ∀ o ∈ objects, ∀ hh, o.intersect ray scene_t_min f32_max = some hh →
          a.t ≤ hh.t := h1
    have h2c : (∃ o ∈ objects2, o.intersect ray scene_t_min f32_max = some b) ∧
        ∀ o ∈ objects2, ∀ hh, o.intersect ray scene_t_min f32_max = some hh →
          b.t ≤ hh.t := h2
    obtain ⟨⟨oa, hoa, hsa⟩, hmina⟩ := h1c
    obtain ⟨⟨ob, hob, hsb⟩, hminb⟩ := h2c
    have hab : a.t ≤ b.t := hmina ob (hperm.mem_iff.mpr hob) b hsb
    have hba : b.t ≤ a.t := hminb oa (hperm.mem_iff.mp hoa) a hsa
    simp [le_antisymm hab hba]

/-- Claim C5: `Scene::intersect` returns, via its shrinking-window linear
scan, exactly the per-object hit of globally minimal `t` over the full
window `[0.001, f32::MAX]` (`None` exactly when every object misses), and
the hit parameter is invariant under permuting the object list. -/
theorem scene_intersect_spec :
    (∀ (objects : List Object) (ray : Ray),
        match scene_intersect objects ray with
        | none => ∀ o ∈ objects, o.intersect ray scene_t_min f32_max = none
        | some h => (∃ o ∈ objects, o.intersect ray scene_t_min f32_max = some h) ∧
            ∀ o ∈ objects, ∀ h2, o.intersect ray scene_t_min f32_max = some h2 →
              h.t ≤ h2.t) ∧
    (∀ (objects objects2 : List Object) (ray : Ray), objects.Perm objects2 →
        Option.map HitRecord.t (scene_intersect objects ray) =
          Option.map HitRecord.t (scene_intersect objects2 ray)) :=
  ⟨scene_intersect_characterization, scene_intersect_perm⟩

/-- Witness for C5: swapping a two-object scene leaves the hit parameter
unchanged. -/
theorem scene_intersect_spec_witness :
    Option.map HitRecord.t
        (scene_intersect [Object.sphere ⟨0, 1, 0⟩, Object.plane ⟨0, ⟨0, 0, 1⟩, 0⟩]
          mock_ray) =
      Option.map HitRecord.t
        (scene_intersect [Object.plane ⟨0, ⟨0, 0, 1⟩, 0⟩, Object.sphere ⟨0, 1, 0⟩]
          mock_ray) :=
  scene_intersect_spec.2 _ _ mock_ray
    (List.Perm.swap (Object.plane ⟨0, ⟨0, 0, 1⟩, 0⟩) (Object.sphere ⟨0, 1, 0⟩) [])

/-! ## Claim C10: `trace` never reaches the unimplemented connection -/

theorem gen_aux_length (scene : SceneT) :
    ∀ (fuel depth : ℕ) (ray : Ray) (beta : Vec3) (smp : SamplerT),
      (gen_aux scene fuel depth ray beta smp).length ≤ fuel := by
  intro fuel
  induction fuel with
  | zero => intro depth ray beta smp; simp [gen_aux]
  | succ n ih =>
    intro depth ray beta smp
    simp only [gen_aux]
    rcases hs : scene ray with _ | hit
    · simp
    · simp only [List.length_cons]
      refine Nat.succ_le_succ ?_
      split_ifs with h1 h2
      · simp
      · simp
      · rcases hsc : hit.material.scatter ray hit.p hit.normal
            (smp.get1d).2 with ⟨_ | sr, smp2⟩
        · simp
        · dsimp only
          split_ifs with h3
          · simp
          · exact ih (depth + 1) sr.ray _ smp2

theorem connect_loop_outer_eq (cv : List PathVertex) (i : ℕ) (c : Vec3)
    (hi : i + 1 ≤ 8) :
    connect_loop_outer cv [] (some c) i =
      some (c + if i = 0 then 0 else vertex_contrib (cv.getD i pv_default)) := by
  have hr1 : List.range (([] : List PathVertex).length + 1) = [0] := by
    simp [List.range_succ]
  unfold connect_loop_outer
  rw [hr1]
  simp only [List.foldl_cons, List.foldl_nil]
  unfold connect_loop_inner
  dsimp only
  rcases Nat.eq_zero_or_pos i with rfl | hpos
  · rw [if_pos (by
      refine Or.inr (Or.inl ?_)
      push_cast)]
    rw [if_pos rfl]
    simp
  · rw [if_neg (by
      simp only [MAX_DEPTH]
      push_cast
      omega)]
    rw [if_neg (show ¬ i = 0 by omega)]
    unfold connect
    rw [if_neg (by
      rintro ⟨_, hcon, _⟩
      exact absurd hcon (lt_irrefl 0))]
    rw [if_pos rfl]
    simp only [Nat.add_sub_cancel]
    by_cases hem : emissive_material (cv.getD i pv_default).material
    · rw [if_pos hem]
      simp only [vertex_contrib, if_pos hem]
    · rw [if_neg hem]
      simp only [vertex_contrib, if_neg hem]

theorem trace_fold (cv : List PathVertex) :
    ∀ n : ℕ, n ≤ 8 → ∀ c0 : Vec3,
      (List.range n).foldl (connect_loop_outer cv []) (some c0) =
        some (c0 + ∑ i ∈ Finset.range n,
          (if i = 0 then 0 else vertex_contrib (cv.getD i pv_default))) := by
  intro n
  induction n with
  | zero =>
    intro _ c0
    simp
  | succ m ih =>
    intro hm c0
    rw [List.range_succ, List.foldl_append, ih (by omega) c0]
    simp only [List.foldl_cons, List.foldl_nil]
    rw [connect_loop_outer_eq cv m _ (by omega)]
    rw [Finset.sum_range_succ, add_assoc]

theorem emissive_sum_eq_range (l : List PathVertex) :
    emissive_sum l = ∑ i ∈ Finset.range l.length, vertex_contrib (l.getD i pv_default) := by
  induction l with
  | nil => simp [emissive_sum]
  | cons v rest ih =>
    have hstep : emissive_sum (v :: rest) = vertex_contrib v + emissive_sum rest := by
      simp [emissive_sum]
    rw [hstep, ih, List.length_cons, Finset.sum_range_succ' (fun i =>
      vertex_contrib ((v :: rest).getD i pv_default)) rest.length]
    simp only [List.getD_cons_succ, List.getD_cons_zero]
    rw [add_comm]

theorem contrib_sum_eq_drop (cv : List PathVertex) :
    (∑ i ∈ Finset.range cv.length,
        (if i = 0 then 0 else vertex_contrib (cv.getD i pv_default))) =
      emissive_sum (cv.drop 1) := by
  cases cv with
  | nil => simp [emissive_sum]
  | cons v rest =>
    rw [List.length_cons, Finset.sum_range_succ' (fun i =>
      if i = 0 then 0 else vertex_contrib ((v :: rest).getD i pv_default)) rest.length]
    simp only [List.getD_cons_succ, Nat.succ_ne_zero, if_neg, if_pos]
    rw [emissive_sum_eq_range]
    simp

/-- Claim C10: with the empty light-vertex list `trace` builds, every
`connect` call it makes has `s = 0`, so the `not implemented` panic is
unreachable, and `trace` returns exactly the sum of `beta * emission` over
the emissive camera-path vertices beyond the camera origin (the skipped
`t = 1` term contributes nothing). -/
theorem trace_spec (scene : SceneT) (ray : Ray) (smp : SamplerT) :
    trace scene ray smp =
      some (emissive_sum ((generate_camera_vertices scene ray smp).drop 1)) := by
  have hlen : (generate_camera_vertices scene ray smp).length ≤ 8 := by
    simp only [generate_camera_vertices, List.length_cons]
    have hb := gen_aux_length scene MAX_DEPTH 0 ray ⟨1, 1, 1⟩ smp
    have h6 : MAX_DEPTH ≤ 7 := by simp [MAX_DEPTH]
    omega
  simp only [trace]
  rw [trace_fold (generate_camera_vertices scene ray smp)
    (generate_camera_vertices scene ray smp).length hlen 0]
  rw [contrib_sum_eq_drop]
  rw [zero_add]
